import Mathlib

/-!
Verification of the historical-data aggregation and caching layer of the
swapr-info analytics dashboard, shallowly embedded from
`src/contexts/PairData.jsx`.

The source file concatenates two revisions of the module; the embedding
follows the revision cited by each claim (the first revision for the
reducer, `getBulkPairData`, `parseData`, `getPairChartData` and
`getPairRateData`; the second revision's `getHourlyRateData`, which shares
its candle-construction logic with `getPairRateData`).

Network effects (GraphQL queries, the multicall contract) are modelled as
oracle inputs: a fetch stage is a value of `Except Err _` (an exception is
`Except.error`), and a subgraph response is a function supplied to the
embedded definition.  String-encoded decimal amounts are modelled as `Rat`.
-/

namespace SwaprInfo

/-! ### Cache store

The reducer of the first revision (`PairData.jsx` lines 76-159).  The JS
state is a single object whose keys fall into three disjoint namespaces:
pair addresses (hex strings), mining-campaign statuses (`'active'` /
`'expired'`) and the literal key `'topPairs'`.  The embedding separates the
three namespaces into fields; each is a total function from the key space
to an optional entry, so an object spread such as
`{...state, [addr]: e}` becomes `Function.update`.

A pair entry holds the derived-record payload written by `UPDATE` (the JS
action shallow-merges the record's scalar fields over the entry; the
payload carries no `txns` / `chartData` / time-window keys, so the merge
amounts to replacing the record part), plus the `txns`, `chartData` and
per-(timeWindow, interval) hourly sub-entries written by the other
actions. -/

structure PairEntry (R T C H : Type) where
  record : Option R := none
  txns : Option T := none
  chartData : Option C := none
  hourly : String → String → Option H := fun _ _ => none

structure TopPairItem (P : Type) where
  id : String
  payload : P

structure PairState (R T C H M P : Type) where
  entries : String → Option (PairEntry R T C H)
  mining : String → Option M
  topPairs : String → Option (String → Option (TopPairItem P))

inductive PairAction (R T C H M P : Type) where
  | update (pairAddress : String) (data : R)
  | updateMiningData (status : String) (liquidityMiningData : M)
  | updateTopPairs (topPairs : Option (List (TopPairItem P))) (network : String)
  | updatePairTxns (address : String) (transactions : T)
  | updateChartData (address : String) (chartData : C)
  | updateHourlyData (address : String) (data : H) (timeWindow interval : String)
  | reset

/-- `INITIAL_STATE = { topPairs: {} }` (line 74). -/
def INITIAL_STATE {R T C H M P : Type} : PairState R T C H M P :=
  { entries := fun _ => none, mining := fun _ => none, topPairs := fun _ => none }

/-- `{...state?.[addr]}`: spreading a missing entry yields the empty object. -/
def entryOrEmpty {R T C H : Type} (e : Option (PairEntry R T C H)) : PairEntry R T C H :=
  e.getD {}

/-- The reducer (lines 76-159).  Each case returns a fresh state object with
only the targeted key replaced; `RESET` keeps exactly the `topPairs`
partition. -/
def reducer {R T C H M P : Type} (s : PairState R T C H M P) (a : PairAction R T C H M P) :
    PairState R T C H M P :=
  match a with
  | .update addr data =>
    let old := entryOrEmpty (s.entries addr)
    let e := { old with record := some data }
    { s with entries := Function.update s.entries addr (some e) }
  | .updateMiningData status m =>
    { s with mining := Function.update s.mining status (some m) }
  | .updateTopPairs tps network =>
    let newTopPairs : String → Option (TopPairItem P) :=
      match tps with
      | some l => l.foldl (fun acc p => Function.update acc p.id (some p)) (fun _ => none)
      | none => fun _ => none
    { s with topPairs := Function.update s.topPairs network (some newTopPairs) }
  | .updatePairTxns addr t =>
    let old := entryOrEmpty (s.entries addr)
    let e := { old with txns := some t }
    { s with entries := Function.update s.entries addr (some e) }
  | .updateChartData addr c =>
    let old := entryOrEmpty (s.entries addr)
    let e := { old with chartData := some c }
    { s with entries := Function.update s.entries addr (some e) }
  | .updateHourlyData addr d tw iv =>
    let old := entryOrEmpty (s.entries addr)
    let newHourly := fun tw2 iv2 =>
      if tw2 = tw then (if iv2 = iv then some d else old.hourly tw2 iv2)
      else old.hourly tw2 iv2
    let e := { old with hourly := newHourly }
    { s with entries := Function.update s.entries addr (some e) }
  | .reset =>
    { entries := fun _ => none, mining := fun _ => none, topPairs := s.topPairs }

/-- C5: a cache mutation targeting a single key X (`UPDATE`,
`UPDATE_PAIR_TXNS`, `UPDATE_CHART_DATA`, `UPDATE_HOURLY_DATA`) leaves the
entry of every other key Y untouched, and also leaves the mining and
top-pairs partitions untouched. -/
theorem cache_write_isolation {R T C H M P : Type}
    (s : PairState R T C H M P) (x y st nw : String) (hxy : y ≠ x)
    (d : R) (t : T) (c : C) (hd : H) (tw iv : String) :
    ((reducer s (.update x d)).entries y = s.entries y ∧
      (reducer s (.update x d)).mining st = s.mining st ∧
      (reducer s (.update x d)).topPairs nw = s.topPairs nw) ∧
    ((reducer s (.updatePairTxns x t)).entries y = s.entries y ∧
      (reducer s (.updatePairTxns x t)).mining st = s.mining st ∧
      (reducer s (.updatePairTxns x t)).topPairs nw = s.topPairs nw) ∧
    ((reducer s (.updateChartData x c)).entries y = s.entries y ∧
      (reducer s (.updateChartData x c)).mining st = s.mining st ∧
      (reducer s (.updateChartData x c)).topPairs nw = s.topPairs nw) ∧
    ((reducer s (.updateHourlyData x hd tw iv)).entries y = s.entries y ∧
      (reducer s (.updateHourlyData x hd tw iv)).mining st = s.mining st ∧
      (reducer s (.updateHourlyData x hd tw iv)).topPairs nw = s.topPairs nw) := by
  refine ⟨⟨?_, ?_, ?_⟩, ⟨?_, ?_, ?_⟩, ⟨?_, ?_, ?_⟩, ⟨?_, ?_, ?_⟩⟩ <;>
    simp [reducer, Function.update_noteq hxy]

/-- A small populated state used to instantiate the reducer theorems. -/
def sDemo : PairState Nat Nat Nat Nat Nat Nat :=
  { entries := fun a => if a = "0xbb" then some { record := some 7, txns := some 3 } else none,
    mining := fun st => if st = "active" then some 9 else none,
    topPairs := fun nw => if nw = "mainnet" then some (fun _ => none) else none }

theorem cache_write_isolation_witness :
    ((reducer sDemo (.update "0xaa" 5)).entries "0xbb" = sDemo.entries "0xbb" ∧
      (reducer sDemo (.update "0xaa" 5)).mining "active" = sDemo.mining "active" ∧
      (reducer sDemo (.update "0xaa" 5)).topPairs "mainnet" = sDemo.topPairs "mainnet") ∧
    ((reducer sDemo (.updatePairTxns "0xaa" 1)).entries "0xbb" = sDemo.entries "0xbb" ∧
      (reducer sDemo (.updatePairTxns "0xaa" 1)).mining "active" = sDemo.mining "active" ∧
      (reducer sDemo (.updatePairTxns "0xaa" 1)).topPairs "mainnet" = sDemo.topPairs "mainnet") ∧
    ((reducer sDemo (.updateChartData "0xaa" 2)).entries "0xbb" = sDemo.entries "0xbb" ∧
      (reducer sDemo (.updateChartData "0xaa" 2)).mining "active" = sDemo.mining "active" ∧
      (reducer sDemo (.updateChartData "0xaa" 2)).topPairs "mainnet" = sDemo.topPairs "mainnet") ∧
    ((reducer sDemo (.updateHourlyData "0xaa" 4 "week" "3600")).entries "0xbb"
        = sDemo.entries "0xbb" ∧
      (reducer sDemo (.updateHourlyData "0xaa" 4 "week" "3600")).mining "active"
        = sDemo.mining "active" ∧
      (reducer sDemo (.updateHourlyData "0xaa" 4 "week" "3600")).topPairs "mainnet"
        = sDemo.topPairs "mainnet") :=
  cache_write_isolation sDemo "0xaa" "0xbb" "active" "mainnet" (by decide) 5 1 2 4 "week" "3600"

/-- C6: after `RESET`, every per-pair entry and every mining-campaign entry
reads as empty/undefined, while the `topPairs` partition is preserved
exactly. -/
theorem cache_reset_clears {R T C H M P : Type}
    (s : PairState R T C H M P) (a st nw : String) :
    (reducer s .reset).entries a = none ∧
    (reducer s .reset).mining st = none ∧
    (reducer s .reset).topPairs nw = s.topPairs nw ∧
    (reducer s .reset).topPairs = s.topPairs :=
  ⟨rfl, rfl, rfl, rfl⟩

/-- C8: an `UPDATE_CHART_DATA` mutation for an address with an existing
entry replaces only the `chartData` field; the record payload, the `txns`
field and the hourly sub-entries are all preserved. -/
theorem chart_update_preserves_fields {R T C H M P : Type}
    (s : PairState R T C H M P) (a : String) (e : PairEntry R T C H) (c : C)
    (he : s.entries a = some e) :
    (reducer s (.updateChartData a c)).entries a =
      some { record := e.record, txns := e.txns, chartData := some c, hourly := e.hourly } := by
  simp [reducer, entryOrEmpty, he, Function.update_same]

theorem chart_update_preserves_fields_witness :
    (reducer sDemo (.updateChartData "0xbb" 2)).entries "0xbb" =
      some { record := some 7, txns := some 3, chartData := some 2,
             hourly := fun _ _ => none } :=
  chart_update_preserves_fields sDemo "0xbb" { record := some 7, txns := some 3 } 2 (by rfl)

/-! ### Metric derivation (`parseData`, lines 339-379)

A pair snapshot carries the raw subgraph fields `parseData` reads.  The
subgraph encodes amounts as decimal strings and the JS code coerces them
with `parseFloat`; amounts are modelled as `Rat` directly. -/

structure PairBulk where
  id : String
  volumeUSD : Rat
  untrackedVolumeUSD : Rat
  reserveUSD : Rat
  trackedReserveNativeCurrency : Rat
  createdAtBlockNumber : Nat
deriving DecidableEq

/-- Modelled from the spec: `get2DayPercentChange` is imported from
`src/utils`, which is not part of the provided sources.  Spec section 4.3:
"given a current cumulative value and two older cumulative values (t-1d,
t-2d), the one-day delta is `current − t1d` and the percent change is
computed against the *previous* one-day delta `(t1d − t2d)`, guarding
division by zero by returning 0% when the denominator is 0." -/
def get2DayPercentChange (valueNow value24HoursAgo value48HoursAgo : Rat) : Rat × Rat :=
  let currentChange := valueNow - value24HoursAgo
  let previousChange := value24HoursAgo - value48HoursAgo
  if previousChange = 0 then (currentChange, 0)
  else (currentChange, (currentChange - previousChange) / previousChange * 100)

/-- Modelled from the spec: `getPercentChange` is imported from `src/utils`,
which is not part of the provided sources.  Spec section 4.3: "simple
percent change between current reserve and the 1-day-ago reserve; 0% if the
1-day-ago value is absent." -/
def getPercentChange (valueNow : Rat) (value24HoursAgo : Option Rat) : Rat :=
  match value24HoursAgo with
  | none => 0
  | some v => if v = 0 then 0 else (valueNow - v) / v * 100

/-- The derived record `parseData` produces: the snapshot fields plus the
computed volume/liquidity fields.  `swapFee` is set by the caller
(`getBulkPairData`); `parseData` itself leaves the default. -/
structure ParsedPair where
  id : String
  volumeUSD : Rat
  untrackedVolumeUSD : Rat
  reserveUSD : Rat
  trackedReserveNativeCurrency : Rat
  createdAtBlockNumber : Nat
  oneDayVolumeUSD : Rat
  oneWeekVolumeUSD : Rat
  volumeChangeUSD : Rat
  oneDayVolumeUntracked : Rat
  volumeChangeUntracked : Rat
  trackedReserveUSD : Rat
  liquidityChangeUSD : Rat
  swapFee : Nat := 25
deriving DecidableEq

/-- `parseData` (lines 339-379).  The three trailing `if` statements mirror
the source exactly: the creation-block override and the generic
missing-snapshot fallback both require `!oneDayData`, and are applied in
source order. -/
def parseData (data : PairBulk) (oneDayData twoDayData oneWeekData : Option PairBulk)
    (nativeCurrencyPrice : Rat) (oneDayBlock : Nat) : ParsedPair :=
  let p1 := get2DayPercentChange data.volumeUSD
    ((oneDayData.map (·.volumeUSD)).getD 0) ((twoDayData.map (·.volumeUSD)).getD 0)
  let p2 := get2DayPercentChange data.untrackedVolumeUSD
    ((oneDayData.map (·.untrackedVolumeUSD)).getD 0)
    ((twoDayData.map (·.untrackedVolumeUSD)).getD 0)
  let oneWeekVolumeUSD :=
    match oneWeekData with
    | some w => data.volumeUSD - w.volumeUSD
    | none => data.volumeUSD
  let odv1 := p1.1
  let odv2 :=
    if oneDayData.isNone ∧ data.createdAtBlockNumber > oneDayBlock then data.volumeUSD else odv1
  let odv3 := if oneDayData.isNone then data.volumeUSD else odv2
  let owv := if oneWeekData.isNone then data.volumeUSD else oneWeekVolumeUSD
  { id := data.id
    volumeUSD := data.volumeUSD
    untrackedVolumeUSD := data.untrackedVolumeUSD
    reserveUSD := data.reserveUSD
    trackedReserveNativeCurrency := data.trackedReserveNativeCurrency
    createdAtBlockNumber := data.createdAtBlockNumber
    oneDayVolumeUSD := odv3
    oneWeekVolumeUSD := owv
    volumeChangeUSD := p1.2
    oneDayVolumeUntracked := p2.1
    volumeChangeUntracked := p2.2
    trackedReserveUSD := data.trackedReserveNativeCurrency * nativeCurrencyPrice
    liquidityChangeUSD := getPercentChange data.reserveUSD (oneDayData.map (·.reserveUSD)) }

/-- A current snapshot created at block 100 with lifetime volume 10. -/
def pairCex : PairBulk :=
  { id := "0xabc", volumeUSD := 10, untrackedVolumeUSD := 10, reserveUSD := 5,
    trackedReserveNativeCurrency := 5, createdAtBlockNumber := 100 }

/-- A one-day-ago snapshot of the same pair with cumulative volume 4. -/
def oneDayCex : PairBulk :=
  { id := "0xabc", volumeUSD := 4, untrackedVolumeUSD := 4, reserveUSD := 5,
    trackedReserveNativeCurrency := 5, createdAtBlockNumber := 100 }

/-- C3 counterexample: the entity's creation block (100) is after the 1-day
reference block (50), yet because a one-day snapshot is present, the
creation-after-reference rule does not fire and `oneDayVolumeUSD` is the
two-window delta `10 − 4 = 6`, not the lifetime volume `10`. -/
theorem parseData_creation_override_cex :
    pairCex.createdAtBlockNumber > 50 ∧
    (parseData pairCex (some oneDayCex) none none 1 50).oneDayVolumeUSD = 6 ∧
    (parseData pairCex (some oneDayCex) none none 1 50).oneDayVolumeUSD ≠
      pairCex.volumeUSD := by
  refine ⟨by decide, ?_, ?_⟩ <;>
    norm_num [parseData, get2DayPercentChange, pairCex, oneDayCex]

/-- C3 amended: whenever the one-day-ago snapshot is absent — in particular
whenever the entity was created after the 1-day reference block and hence
has no snapshot there — `oneDayVolumeUSD` is forced to the entity's
lifetime `volumeUSD`, whatever the two-window computation produced.  When a
one-day snapshot is present the two-window result stands even if the
creation block is after the reference block. -/
theorem parseData_missing_oneDay_forces_lifetime
    (data : PairBulk) (oneDayData twoDayData oneWeekData : Option PairBulk)
    (nativeCurrencyPrice : Rat) (oneDayBlock : Nat)
    (h : oneDayData = none) :
    (parseData data oneDayData twoDayData oneWeekData
        nativeCurrencyPrice oneDayBlock).oneDayVolumeUSD = data.volumeUSD := by
  subst h
  simp [parseData]

theorem parseData_missing_oneDay_forces_lifetime_witness :
    (parseData pairCex none none none 1 50).oneDayVolumeUSD = pairCex.volumeUSD :=
  parseData_missing_oneDay_forces_lifetime pairCex none none none 1 50 rfl

/-! ### Hourly rate candles (`getPairRateData` lines 470-540,
`getHourlyRateData` lines 1301-1371)

Both functions share the same pipeline: enumerate boundary timestamps,
resolve them to blocks (a bulk subgraph query, modelled as the `resolve`
oracle; `null`/failure yields `none`), optionally drop blocks beyond the
latest synced block, query the pair's token prices at each block (the
`HOURLY_PAIR_RATES` aliased query, modelled as the `rowValue` oracle; a
`null` row makes `parseFloat` produce `NaN`, modelled as `none`), and pair
consecutive samples into open/close candles.  The two functions differ only
in the enumeration bound (`time <= now` versus `time <= now - 3600`) and in
the interval parameter. -/

structure BlockRes where
  timestamp : Nat
  number : Nat
deriving DecidableEq

structure RateSample where
  timestamp : Nat
  rate0 : Option Rat
  rate1 : Option Rat
deriving DecidableEq

structure Candle where
  timestamp : Nat
  openPrice : Option Rat
  closePrice : Option Rat
deriving DecidableEq

/-- `while (time <= endTime) { timestamps.push(time); time += interval }`.
The JS loop diverges when `interval = 0`; call sites always pass 3600 (or
the default), and the embedding returns `[]` in that unreachable case. -/
def enumTimestamps (startTime endTime interval : Nat) : List Nat :=
  if _h0 : interval = 0 then []
  else if _h : startTime ≤ endTime then
    startTime :: enumTimestamps (startTime + interval) endTime interval
  else []
termination_by endTime + 1 - startTime
decreasing_by omega

/-- One entry of the `values` array: the row keyed `t{timestamp}` of the
rate query, with `parseFloat` of a missing row's fields giving `NaN`
(`none`). -/
def mkSample (rowValue : Nat → Option (Rat × Rat)) (b : BlockRes) : RateSample :=
  { timestamp := b.timestamp
    rate0 := (rowValue b.timestamp).map Prod.fst
    rate1 := (rowValue b.timestamp).map Prod.snd }

/-- `if (latestBlock) blocks = blocks.filter(b => b.number <= latestBlock)`;
a zero/undefined `latestBlock` is falsy and skips the filter. -/
def filterLatest (latestBlock : Option Nat) (blocks : List BlockRes) : List BlockRes :=
  match latestBlock with
  | some lb => if lb ≠ 0 then blocks.filter (fun b => b.number ≤ lb) else blocks
  | none => blocks

/-- `for (let i = 0; i < values.length - 1; i++) push({timestamp: values[i],
open: proj values[i], close: proj values[i+1]})`. -/
def buildCandles (proj : RateSample → Option Rat) : List RateSample → List Candle
  | a :: b :: rest =>
    { timestamp := a.timestamp, openPrice := proj a, closePrice := proj b }
      :: buildCandles proj (b :: rest)
  | _ => []

/-- The sample list both candle series are built from. -/
def rateValues (timestamps : List Nat) (latestBlock : Option Nat)
    (resolve : List Nat → Option (List BlockRes)) (rowValue : Nat → Option (Rat × Rat)) :
    List RateSample :=
  match resolve timestamps with
  | none => []
  | some blocks => (filterLatest latestBlock blocks).map (mkSample rowValue)

/-- The shared tail of both rate functions, from the empty-timestamps
backout to the candle construction. -/
def ratePipeline (timestamps : List Nat) (latestBlock : Option Nat)
    (resolve : List Nat → Option (List BlockRes)) (rowValue : Nat → Option (Rat × Rat)) :
    List (List Candle) :=
  if timestamps.isEmpty then []
  else
    match resolve timestamps with
    | none => []
    | some blocks =>
      if blocks.isEmpty then []
      else
        let values := (filterLatest latestBlock blocks).map (mkSample rowValue)
        [buildCandles (·.rate0) values, buildCandles (·.rate1) values]

/-- `getPairRateData` (first revision, lines 470-540). -/
def getPairRateData (startTime endTime interval : Nat) (latestBlock : Option Nat)
    (resolve : List Nat → Option (List BlockRes)) (rowValue : Nat → Option (Rat × Rat)) :
    List (List Candle) :=
  ratePipeline (enumTimestamps startTime endTime interval) latestBlock resolve rowValue

/-- `getHourlyRateData` (second revision, lines 1301-1371): fixed 3600s
interval, enumeration stops at `now - 3600`. -/
def getHourlyRateData (startTime endTime : Nat) (latestBlock : Option Nat)
    (resolve : List Nat → Option (List BlockRes)) (rowValue : Nat → Option (Rat × Rat)) :
    List (List Candle) :=
  ratePipeline (enumTimestamps startTime (endTime - 3600) 3600) latestBlock resolve rowValue

theorem buildCandles_getq (proj : RateSample → Option Rat) :
    ∀ (values : List RateSample) (i : Nat),
      (buildCandles proj values).get? i =
        (values.get? i).bind fun a => (values.get? (i + 1)).map fun b =>
          { timestamp := a.timestamp, openPrice := proj a, closePrice := proj b }
  | [], i => by simp [buildCandles]
  | [a], i => by cases i <;> simp [buildCandles]
  | a :: b :: rest, 0 => by simp [buildCandles]
  | a :: b :: rest, i + 1 => by
    have ih := buildCandles_getq proj (b :: rest) i
    simpa [buildCandles] using ih

theorem buildCandles_length (proj : RateSample → Option Rat) :
    ∀ values : List RateSample, (buildCandles proj values).length = values.length - 1
  | [] => rfl
  | [a] => rfl
  | a :: b :: rest => by
    have ih := buildCandles_length proj (b :: rest)
    simp [buildCandles] at ih ⊢
    omega

theorem buildCandles_mem (proj : RateSample → Option Rat) :
    ∀ (values : List RateSample) (c : Candle), c ∈ buildCandles proj values →
      ∃ a b, a ∈ values ∧ b ∈ values ∧
        c = { timestamp := a.timestamp, openPrice := proj a, closePrice := proj b }
  | [], c => by simp [buildCandles]
  | [a], c => by simp [buildCandles]
  | a :: b :: rest, c => by
    intro hc
    rcases List.mem_cons.mp hc with h | h
    · exact ⟨a, b, by simp, by simp, h⟩
    · obtain ⟨x, y, hx, hy, hxy⟩ := buildCandles_mem proj (b :: rest) c h
      exact ⟨x, y, List.mem_cons_of_mem a hx, List.mem_cons_of_mem a hy, hxy⟩

/-- A successful run returning two series returns exactly the candle series
built from the sample list. -/
theorem ratePipeline_eq_pair (timestamps : List Nat) (latestBlock : Option Nat)
    (resolve : List Nat → Option (List BlockRes)) (rowValue : Nat → Option (Rat × Rat))
    (s0 s1 : List Candle)
    (h : ratePipeline timestamps latestBlock resolve rowValue = [s0, s1]) :
    s0 = buildCandles (·.rate0) (rateValues timestamps latestBlock resolve rowValue) ∧
    s1 = buildCandles (·.rate1) (rateValues timestamps latestBlock resolve rowValue) := by
  unfold ratePipeline at h
  by_cases hts : timestamps.isEmpty
  · simp [hts] at h
  · cases hres : resolve timestamps with
    | none => simp [hts, hres] at h
    | some blocks =>
      by_cases hb : blocks.isEmpty
      · simp [hts, hres, hb] at h
      · simp [hts, hres, hb] at h
        simp [rateValues, hres]
        exact ⟨h.1.symm, h.2.symm⟩

/-- The sample list of a `getPairRateData` run. -/
def pairValues (startTime endTime interval : Nat) (latestBlock : Option Nat)
    (resolve : List Nat → Option (List BlockRes)) (rowValue : Nat → Option (Rat × Rat)) :
    List RateSample :=
  rateValues (enumTimestamps startTime endTime interval) latestBlock resolve rowValue

/-- The sample list of a `getHourlyRateData` run. -/
def hourlyValues (startTime endTime : Nat) (latestBlock : Option Nat)
    (resolve : List Nat → Option (List BlockRes)) (rowValue : Nat → Option (Rat × Rat)) :
    List RateSample :=
  rateValues (enumTimestamps startTime (endTime - 3600) 3600) latestBlock resolve rowValue

/-- The expected candle at index `i`: open from sample `i`, close from
sample `i+1`, absent beyond `N − 1`. -/
def candleFromValues (proj : RateSample → Option Rat) (values : List RateSample) (i : Nat) :
    Option Candle :=
  (values.get? i).bind fun a => (values.get? (i + 1)).map fun b =>
    { timestamp := a.timestamp, openPrice := proj a, closePrice := proj b }

theorem buildCandles_timestamp_eq (proj proj' : RateSample → Option Rat)
    (values : List RateSample) (i : Nat) :
    ((buildCandles proj values).get? i).map (·.timestamp)
      = ((buildCandles proj' values).get? i).map (·.timestamp) := by
  rw [buildCandles_getq, buildCandles_getq]
  cases values.get? i <;> cases values.get? (i + 1) <;> simp

theorem buildCandles_timestamp_src (proj : RateSample → Option Rat)
    (values : List RateSample) (i : Nat) (c : Candle)
    (h : (buildCandles proj values).get? i = some c) :
    (values.get? i).map (·.timestamp) = some c.timestamp := by
  rw [buildCandles_getq] at h
  cases ha : values.get? i <;> rw [ha] at h
  · simp at h
  · cases hb : values.get? (i + 1) <;> rw [hb] at h
    · simp at h
    · simp at h
      simp [← h]

/-- C2: hourly candle construction over `N` resolved rate samples yields
exactly `N − 1` candles per series, candle `i` opening at sample `i`'s rate
and closing at sample `i+1`'s rate with no trailing open-only candle; a
window with zero enumerable or resolvable boundaries yields an empty
result instead of an error.  Both `getPairRateData` and
`getHourlyRateData` are covered. -/
theorem candle_series_shape :
    (∀ (startTime endTime interval : Nat) (latestBlock : Option Nat)
        (resolve : List Nat → Option (List BlockRes)) (rowValue : Nat → Option (Rat × Rat))
        (s0 s1 : List Candle),
      getPairRateData startTime endTime interval latestBlock resolve rowValue = [s0, s1] →
        s0.length = (pairValues startTime endTime interval latestBlock resolve rowValue).length - 1 ∧
        s1.length = (pairValues startTime endTime interval latestBlock resolve rowValue).length - 1 ∧
        ∀ i, s0.get? i
              = candleFromValues (·.rate0)
                  (pairValues startTime endTime interval latestBlock resolve rowValue) i ∧
            s1.get? i
              = candleFromValues (·.rate1)
                  (pairValues startTime endTime interval latestBlock resolve rowValue) i) ∧
    (∀ (startTime endTime interval : Nat) (latestBlock : Option Nat)
        (resolve : List Nat → Option (List BlockRes)) (rowValue : Nat → Option (Rat × Rat)),
      enumTimestamps startTime endTime interval = [] ∨
        resolve (enumTimestamps startTime endTime interval) = none ∨
        resolve (enumTimestamps startTime endTime interval) = some [] →
      getPairRateData startTime endTime interval latestBlock resolve rowValue = []) ∧
    (∀ (startTime endTime : Nat) (latestBlock : Option Nat)
        (resolve : List Nat → Option (List BlockRes)) (rowValue : Nat → Option (Rat × Rat))
        (s0 s1 : List Candle),
      getHourlyRateData startTime endTime latestBlock resolve rowValue = [s0, s1] →
        s0.length = (hourlyValues startTime endTime latestBlock resolve rowValue).length - 1 ∧
        s1.length = (hourlyValues startTime endTime latestBlock resolve rowValue).length - 1 ∧
        ∀ i, s0.get? i
              = candleFromValues (·.rate0)
                  (hourlyValues startTime endTime latestBlock resolve rowValue) i ∧
            s1.get? i
              = candleFromValues (·.rate1)
                  (hourlyValues startTime endTime latestBlock resolve rowValue) i) ∧
    (∀ (startTime endTime : Nat) (latestBlock : Option Nat)
        (resolve : List Nat → Option (List BlockRes)) (rowValue : Nat → Option (Rat × Rat)),
      enumTimestamps startTime (endTime - 3600) 3600 = [] ∨
        resolve (enumTimestamps startTime (endTime - 3600) 3600) = none ∨
        resolve (enumTimestamps startTime (endTime - 3600) 3600) = some [] →
      getHourlyRateData startTime endTime latestBlock resolve rowValue = []) := by
  have core : ∀ (ts : List Nat) (lb : Option Nat)
      (res : List Nat → Option (List BlockRes)) (rv : Nat → Option (Rat × Rat))
      (s0 s1 : List Candle), ratePipeline ts lb res rv = [s0, s1] →
        s0.length = (rateValues ts lb res rv).length - 1 ∧
        s1.length = (rateValues ts lb res rv).length - 1 ∧
        ∀ i, s0.get? i = candleFromValues (·.rate0) (rateValues ts lb res rv) i ∧
            s1.get? i = candleFromValues (·.rate1) (rateValues ts lb res rv) i := by
    intro ts lb res rv s0 s1 h
    obtain ⟨h0, h1⟩ := ratePipeline_eq_pair ts lb res rv s0 s1 h
    subst h0; subst h1
    refine ⟨buildCandles_length _ _, buildCandles_length _ _, fun i => ⟨?_, ?_⟩⟩ <;>
      rw [buildCandles_getq] <;> rfl
  have empty : ∀ (ts : List Nat) (lb : Option Nat)
      (res : List Nat → Option (List BlockRes)) (rv : Nat → Option (Rat × Rat)),
      ts = [] ∨ res ts = none ∨ res ts = some [] → ratePipeline ts lb res rv = [] := by
    intro ts lb res rv h
    rcases h with h | h | h
    · simp [ratePipeline, h]
    · by_cases hts : ts.isEmpty
      · simp [ratePipeline, hts]
      · simp [ratePipeline, hts, h]
    · by_cases hts : ts.isEmpty
      · simp [ratePipeline, hts]
      · simp [ratePipeline, hts, h]
  exact ⟨fun st et iv lb res rv s0 s1 h => core _ lb res rv s0 s1 h,
    fun st et iv lb res rv h => empty _ lb res rv h,
    fun st et lb res rv s0 s1 h => core _ lb res rv s0 s1 h,
    fun st et lb res rv h => empty _ lb res rv h⟩

/-- Concrete block-resolution oracle: three boundaries mapped to blocks
10, 20 and 30. -/
def resW : List Nat → Option (List BlockRes) :=
  fun _ => some [⟨0, 10⟩, ⟨3600, 20⟩, ⟨7200, 30⟩]

/-- Concrete rate oracle. -/
def rvW : Nat → Option (Rat × Rat) :=
  fun t => if t = 0 then some (1, 2) else if t = 3600 then some (3, 4) else some (5, 6)

def s0W : List Candle := [⟨0, some 1, some 3⟩, ⟨3600, some 3, some 5⟩]

def s1W : List Candle := [⟨0, some 2, some 4⟩, ⟨3600, some 4, some 6⟩]

theorem enumTimestamps_step (startTime endTime interval : Nat)
    (h0 : interval ≠ 0) (h : startTime ≤ endTime) :
    enumTimestamps startTime endTime interval =
      startTime :: enumTimestamps (startTime + interval) endTime interval := by
  rw [enumTimestamps]
  simp [h0, h]

theorem enumTimestamps_stop (startTime endTime interval : Nat)
    (h : ¬startTime ≤ endTime) :
    enumTimestamps startTime endTime interval = [] := by
  rw [enumTimestamps]
  simp [h]

theorem candle_series_shape_run :
    getPairRateData 0 7200 3600 none resW rvW = [s0W, s1W] := by
  rw [getPairRateData,
    enumTimestamps_step 0 7200 3600 (by norm_num) (by norm_num),
    enumTimestamps_step 3600 7200 3600 (by norm_num) (by norm_num),
    enumTimestamps_step 7200 7200 3600 (by norm_num) (by norm_num),
    enumTimestamps_stop 10800 7200 3600 (by norm_num)]
  norm_num [ratePipeline, resW, rvW, filterLatest, mkSample, buildCandles, s0W, s1W]

theorem candle_series_shape_witness :
    (s0W.length = (pairValues 0 7200 3600 none resW rvW).length - 1 ∧
      s1W.length = (pairValues 0 7200 3600 none resW rvW).length - 1 ∧
      ∀ i, s0W.get? i = candleFromValues (·.rate0) (pairValues 0 7200 3600 none resW rvW) i ∧
          s1W.get? i = candleFromValues (·.rate1) (pairValues 0 7200 3600 none resW rvW) i) ∧
    getPairRateData 9999 0 3600 none resW rvW = [] ∧
    getHourlyRateData 1 3600 none resW rvW = [] :=
  ⟨candle_series_shape.1 0 7200 3600 none resW rvW s0W s1W candle_series_shape_run,
    candle_series_shape.2.1 9999 0 3600 none resW rvW
      (Or.inl (enumTimestamps_stop 9999 0 3600 (by norm_num))),
    candle_series_shape.2.2.2 1 3600 none resW rvW
      (Or.inl (enumTimestamps_stop 1 0 3600 (by norm_num)))⟩

/-- C10: whenever a run returns the two candle series, they have equal
length, and at every index both carry the same timestamp, namely the
boundary-`i` sample's timestamp. -/
theorem candle_series_alignment :
    (∀ (startTime endTime interval : Nat) (latestBlock : Option Nat)
        (resolve : List Nat → Option (List BlockRes)) (rowValue : Nat → Option (Rat × Rat))
        (s0 s1 : List Candle),
      getPairRateData startTime endTime interval latestBlock resolve rowValue = [s0, s1] →
        s0.length = s1.length ∧
        ∀ i, (s0.get? i).map (·.timestamp) = (s1.get? i).map (·.timestamp) ∧
          ∀ c, s0.get? i = some c →
            ((pairValues startTime endTime interval latestBlock resolve rowValue).get? i).map
              (·.timestamp) = some c.timestamp) ∧
    (∀ (startTime endTime : Nat) (latestBlock : Option Nat)
        (resolve : List Nat → Option (List BlockRes)) (rowValue : Nat → Option (Rat × Rat))
        (s0 s1 : List Candle),
      getHourlyRateData startTime endTime latestBlock resolve rowValue = [s0, s1] →
        s0.length = s1.length ∧
        ∀ i, (s0.get? i).map (·.timestamp) = (s1.get? i).map (·.timestamp) ∧
          ∀ c, s0.get? i = some c →
            ((hourlyValues startTime endTime latestBlock resolve rowValue).get? i).map
              (·.timestamp) = some c.timestamp) := by
  have core : ∀ (ts : List Nat) (lb : Option Nat)
      (res : List Nat → Option (List BlockRes)) (rv : Nat → Option (Rat × Rat))
      (s0 s1 : List Candle), ratePipeline ts lb res rv = [s0, s1] →
        s0.length = s1.length ∧
        ∀ i, (s0.get? i).map (·.timestamp) = (s1.get? i).map (·.timestamp) ∧
          ∀ c, s0.get? i = some c →
            ((rateValues ts lb res rv).get? i).map (·.timestamp) = some c.timestamp := by
    intro ts lb res rv s0 s1 h
    obtain ⟨h0, h1⟩ := ratePipeline_eq_pair ts lb res rv s0 s1 h
    subst h0; subst h1
    refine ⟨by rw [buildCandles_length, buildCandles_length], fun i => ⟨?_, ?_⟩⟩
    · exact buildCandles_timestamp_eq _ _ _ _
    · exact fun c hc => buildCandles_timestamp_src _ _ _ _ hc
  exact ⟨fun st et iv lb res rv s0 s1 h => core _ lb res rv s0 s1 h,
    fun st et lb res rv s0 s1 h => core _ lb res rv s0 s1 h⟩

theorem candle_series_alignment_witness :
    (s0W.length = s1W.length ∧
      ∀ i, (s0W.get? i).map (·.timestamp) = (s1W.get? i).map (·.timestamp) ∧
        ∀ c, s0W.get? i = some c →
          ((pairValues 0 7200 3600 none resW rvW).get? i).map (·.timestamp)
            = some c.timestamp) :=
  candle_series_alignment.1 0 7200 3600 none resW rvW s0W s1W candle_series_shape_run

/-- C9: when a nonzero latest synced block is supplied, resolved boundary
blocks beyond it are filtered out before candle construction: every candle
of either returned series is built from samples of blocks whose number is
at most the latest synced block. -/
theorem latest_block_filtering :
    (∀ (startTime endTime interval lb : Nat) (blocks : List BlockRes)
        (resolve : List Nat → Option (List BlockRes)) (rowValue : Nat → Option (Rat × Rat))
        (s0 s1 : List Candle),
      lb ≠ 0 →
      resolve (enumTimestamps startTime endTime interval) = some blocks →
      getPairRateData startTime endTime interval (some lb) resolve rowValue = [s0, s1] →
        (∀ c ∈ s0, ∃ a b, a ∈ blocks ∧ b ∈ blocks ∧ a.number ≤ lb ∧ b.number ≤ lb ∧
          c = { timestamp := a.timestamp, openPrice := (mkSample rowValue a).rate0,
                closePrice := (mkSample rowValue b).rate0 }) ∧
        (∀ c ∈ s1, ∃ a b, a ∈ blocks ∧ b ∈ blocks ∧ a.number ≤ lb ∧ b.number ≤ lb ∧
          c = { timestamp := a.timestamp, openPrice := (mkSample rowValue a).rate1,
                closePrice := (mkSample rowValue b).rate1 })) ∧
    (∀ (startTime endTime lb : Nat) (blocks : List BlockRes)
        (resolve : List Nat → Option (List BlockRes)) (rowValue : Nat → Option (Rat × Rat))
        (s0 s1 : List Candle),
      lb ≠ 0 →
      resolve (enumTimestamps startTime (endTime - 3600) 3600) = some blocks →
      getHourlyRateData startTime endTime (some lb) resolve rowValue = [s0, s1] →
        (∀ c ∈ s0, ∃ a b, a ∈ blocks ∧ b ∈ blocks ∧ a.number ≤ lb ∧ b.number ≤ lb ∧
          c = { timestamp := a.timestamp, openPrice := (mkSample rowValue a).rate0,
                closePrice := (mkSample rowValue b).rate0 }) ∧
        (∀ c ∈ s1, ∃ a b, a ∈ blocks ∧ b ∈ blocks ∧ a.number ≤ lb ∧ b.number ≤ lb ∧
          c = { timestamp := a.timestamp, openPrice := (mkSample rowValue a).rate1,
                closePrice := (mkSample rowValue b).rate1 })) := by
  have core : ∀ (ts : List Nat) (lb : Nat) (blocks : List BlockRes)
      (res : List Nat → Option (List BlockRes)) (rv : Nat → Option (Rat × Rat))
      (proj : RateSample → Option Rat) (s : List Candle),
      lb ≠ 0 → res ts = some blocks →
      s = buildCandles proj (rateValues ts (some lb) res rv) →
      ∀ c ∈ s, ∃ a b, a ∈ blocks ∧ b ∈ blocks ∧ a.number ≤ lb ∧ b.number ≤ lb ∧
        c = { timestamp := a.timestamp, openPrice := proj (mkSample rv a),
              closePrice := proj (mkSample rv b) } := by
    intro ts lb blocks res rv proj s hlb hres hs c hc
    subst hs
    obtain ⟨x, y, hx, hy, hxy⟩ := buildCandles_mem proj _ c hc
    rw [rateValues, hres] at hx hy
    simp only [filterLatest, if_pos hlb] at hx hy
    obtain ⟨a, ha, hax⟩ := List.mem_map.mp hx
    obtain ⟨b, hb, hby⟩ := List.mem_map.mp hy
    obtain ⟨ha', hale⟩ := List.mem_filter.mp ha
    obtain ⟨hb', hble⟩ := List.mem_filter.mp hb
    refine ⟨a, b, ha', hb', by simpa using hale, by simpa using hble, ?_⟩
    rw [hxy, ← hax, ← hby]
    rfl
  constructor
  · intro st et iv lb blocks res rv s0 s1 hlb hres h
    obtain ⟨h0, h1⟩ := ratePipeline_eq_pair _ _ _ _ _ _ h
    exact ⟨core _ lb blocks res rv _ s0 hlb hres h0,
      core _ lb blocks res rv _ s1 hlb hres h1⟩
  · intro st et lb blocks res rv s0 s1 hlb hres h
    obtain ⟨h0, h1⟩ := ratePipeline_eq_pair _ _ _ _ _ _ h
    exact ⟨core _ lb blocks res rv _ s0 hlb hres h0,
      core _ lb blocks res rv _ s1 hlb hres h1⟩

def s0F : List Candle := [⟨0, some 1, some 3⟩]

def s1F : List Candle := [⟨0, some 2, some 4⟩]

theorem latest_block_filtering_run :
    getPairRateData 0 7200 3600 (some 25) resW rvW = [s0F, s1F] := by
  rw [getPairRateData,
    enumTimestamps_step 0 7200 3600 (by norm_num) (by norm_num),
    enumTimestamps_step 3600 7200 3600 (by norm_num) (by norm_num),
    enumTimestamps_step 7200 7200 3600 (by norm_num) (by norm_num),
    enumTimestamps_stop 10800 7200 3600 (by norm_num)]
  norm_num [ratePipeline, resW, rvW, filterLatest, mkSample, buildCandles, s0F, s1F,
    List.filter]

theorem latest_block_filtering_witness :
    (∀ c ∈ s0F, ∃ a b, a ∈ [(⟨0, 10⟩ : BlockRes), ⟨3600, 20⟩, ⟨7200, 30⟩] ∧
        b ∈ [(⟨0, 10⟩ : BlockRes), ⟨3600, 20⟩, ⟨7200, 30⟩] ∧
        a.number ≤ 25 ∧ b.number ≤ 25 ∧
        c = { timestamp := a.timestamp, openPrice := (mkSample rvW a).rate0,
              closePrice := (mkSample rvW b).rate0 }) ∧
    (∀ c ∈ s1F, ∃ a b, a ∈ [(⟨0, 10⟩ : BlockRes), ⟨3600, 20⟩, ⟨7200, 30⟩] ∧
        b ∈ [(⟨0, 10⟩ : BlockRes), ⟨3600, 20⟩, ⟨7200, 30⟩] ∧
        a.number ≤ 25 ∧ b.number ≤ 25 ∧
        c = { timestamp := a.timestamp, openPrice := (mkSample rvW a).rate1,
              closePrice := (mkSample rvW b).rate1 }) :=
  latest_block_filtering.1 0 7200 3600 25 [⟨0, 10⟩, ⟨3600, 20⟩, ⟨7200, 30⟩] resW rvW
    s0F s1F (by norm_num) rfl latest_block_filtering_run

/-! ### Bulk pair fetching (`getPairsSwapFee` lines 240-260,
`getBulkPairData` lines 262-337)

Each network stage is an oracle of type `Except Err _`: `Except.error`
models a thrown exception (failed query, response shape mismatch, rejected
multicall).  `getBulkPairData` resolves its reference blocks *before* its
`try` block, so only the stages after that are guarded by the
`catch`. -/

abbrev Err := String

structure BulkOracles where
  resolveBlocks : Except Err (Nat × Nat × Nat)
  fetchCurrent : Except Err (List PairBulk)
  fetchHistorical : Nat → Except Err (List PairBulk)
  fetchSingle : String → Nat → Except Err (Option PairBulk)
  aggregate : Except Err (List Nat)
  decode : Nat → Except Err Nat

/-- `Promise.all(xs.map f)` over fallible per-element work: the first
rejection rejects the whole batch. -/
def exceptMapM {α β : Type} (f : α → Except Err β) : List α → Except Err (List β)
  | [] => .ok []
  | x :: xs =>
    match f x with
    | .error e => .error e
    | .ok y =>
      match exceptMapM f xs with
      | .error e => .error e
      | .ok ys => .ok (y :: ys)

/-- The `reduce((obj, cur) => ({...obj, [cur.id]: cur}), {})` indexing of a
bulk result; a later duplicate id overwrites an earlier one, as in JS. -/
def indexById (l : List PairBulk) : String → Option PairBulk :=
  l.foldl (fun acc cur => Function.update acc cur.id (some cur)) (fun _ => none)

/-- The decode loop of `getPairsSwapFee`: fees accumulated so far survive a
decode exception (the `catch` returns the partially filled object). -/
def decodeFeesLoop (decode : Nat → Except Err Nat) :
    List (String × Nat) → (String → Option Nat) → (String → Option Nat)
  | [], fees => fees
  | (id, blob) :: rest, fees =>
    match decode blob with
    | .ok f => decodeFeesLoop decode rest (Function.update fees id (some f))
    | .error _ => fees

/-- `getPairsSwapFee` (lines 240-260): never throws; a failed multicall or
a length mismatch yields the empty fee map. -/
def getPairsSwapFee (pairIds : List String) (aggregate : Except Err (List Nat))
    (decode : Nat → Except Err Nat) : String → Option Nat :=
  match aggregate with
  | .error _ => fun _ => none
  | .ok returnData =>
    if pairIds.length ≠ returnData.length then fun _ => none
    else decodeFeesLoop decode (pairIds.zip returnData) (fun _ => none)

/-- A historical snapshot for one pair: the bulk-result lookup, falling
back to the single-pair query pinned at the block when absent. -/
def histOf (idx : String → Option PairBulk)
    (fetchSingle : String → Nat → Except Err (Option PairBulk)) (id : String) (b : Nat) :
    Except Err (Option PairBulk) :=
  match idx id with
  | some s => .ok (some s)
  | none => fetchSingle id b

/-- The per-pair body of the `Promise.all` in `getBulkPairData`:
fallback lookups, `parseData`, then `data.swapFee = swapFees[pair.id] || 25`
(a missing or zero fee falls back to the 25-bips default). -/
def pairWithHistory (fetchSingle : String → Nat → Except Err (Option PairBulk))
    (b1 b2 bWeek : Nat) (swapFees : String → Option Nat) (price : Rat)
    (oneDayIdx twoDayIdx oneWeekIdx : String → Option PairBulk) (pair : PairBulk) :
    Except Err ParsedPair :=
  match histOf oneDayIdx fetchSingle pair.id b1 with
  | .error e => .error e
  | .ok oneDayHistory =>
    match histOf twoDayIdx fetchSingle pair.id b2 with
    | .error e => .error e
    | .ok twoDayHistory =>
      match histOf oneWeekIdx fetchSingle pair.id bWeek with
      | .error e => .error e
      | .ok oneWeekHistory =>
        let d := parseData pair oneDayHistory twoDayHistory oneWeekHistory price b1
        .ok { d with swapFee :=
          match swapFees pair.id with
          | some f => if f = 0 then 25 else f
          | none => 25 }

/-- The contents of `getBulkPairData`'s `try` block. -/
def getBulkPairDataBody (pairList : List String) (price : Rat) (o : BulkOracles)
    (b1 b2 bWeek : Nat) : Except Err (List ParsedPair) :=
  match o.fetchCurrent with
  | .error e => .error e
  | .ok current =>
    let swapFees := getPairsSwapFee pairList o.aggregate o.decode
    match o.fetchHistorical b1 with
    | .error e => .error e
    | .ok oneDayResult =>
      match o.fetchHistorical b2 with
      | .error e => .error e
      | .ok twoDayResult =>
        match o.fetchHistorical bWeek with
        | .error e => .error e
        | .ok oneWeekResult =>
          exceptMapM (pairWithHistory o.fetchSingle b1 b2 bWeek swapFees price
            (indexById oneDayResult) (indexById twoDayResult) (indexById oneWeekResult)) current

/-- `getBulkPairData` (lines 262-337).  `Except.error` is a thrown
exception reaching the caller; `.ok none` is the `undefined` return of the
`catch` path; `.ok (some l)` is a successful batch.  Block resolution runs
before the `try`, so its exception propagates. -/
def getBulkPairData (pairList : List String) (price : Rat) (o : BulkOracles)
    (overrideBlocks : Option (Nat × Nat × Nat)) : Except Err (Option (List ParsedPair)) :=
  let blocksE :=
    match overrideBlocks with
    | some bs => Except.ok bs
    | none => o.resolveBlocks
  match blocksE with
  | .error e => .error e
  | .ok (b1, b2, bWeek) =>
    match getBulkPairDataBody pairList price o b1 b2 bWeek with
    | .ok res => .ok (some res)
    | .error _ => .ok none

theorem exceptMapM_ok_length {α β : Type} (f : α → Except Err β) :
    ∀ (xs : List α) (ys : List β), exceptMapM f xs = .ok ys → ys.length = xs.length
  | [], ys => by intro h; simp [exceptMapM] at h; simp [← h]
  | x :: xs, ys => by
    intro h
    unfold exceptMapM at h
    cases hx : f x <;> rw [hx] at h
    · exact absurd h (by simp)
    · cases hxs : exceptMapM f xs <;> rw [hxs] at h
      · exact absurd h (by simp)
      · simp at h
        subst h
        simp [exceptMapM_ok_length f xs _ hxs]

theorem exceptMapM_ok_mem {α β : Type} (f : α → Except Err β) :
    ∀ (xs : List α) (ys : List β), exceptMapM f xs = .ok ys →
      ∀ y ∈ ys, ∃ x ∈ xs, f x = .ok y
  | [], ys => by
    intro h y hy
    simp [exceptMapM] at h
    subst h
    simp at hy
  | x :: xs, ys => by
    intro h y hy
    unfold exceptMapM at h
    cases hx : f x <;> rw [hx] at h
    · exact absurd h (by simp)
    · cases hxs : exceptMapM f xs <;> rw [hxs] at h
      · exact absurd h (by simp)
      · simp at h
        subst h
        rcases List.mem_cons.mp hy with h | h
        · exact ⟨x, by simp, by rw [hx, h]⟩
        · obtain ⟨x', hx', hfx'⟩ := exceptMapM_ok_mem f xs _ hxs y h
          exact ⟨x', List.mem_cons_of_mem x hx', hfx'⟩

theorem exceptMapM_ok_of_forall {α β : Type} (f : α → Except Err β) (P : β → Prop) :
    ∀ xs : List α, (∀ x ∈ xs, ∃ y, f x = .ok y ∧ P y) →
      ∃ ys, exceptMapM f xs = .ok ys ∧ ys.length = xs.length ∧ ∀ y ∈ ys, P y
  | [] => fun _ => ⟨[], rfl, rfl, by simp⟩
  | x :: xs => by
    intro h
    obtain ⟨y, hy, hPy⟩ := h x (by simp)
    obtain ⟨ys, hys, hlen, hP⟩ :=
      exceptMapM_ok_of_forall f P xs (fun x' hx' => h x' (List.mem_cons_of_mem x hx'))
    refine ⟨y :: ys, ?_, by simp [hlen], ?_⟩
    · unfold exceptMapM
      rw [hy, hys]
    · intro z hz
      rcases List.mem_cons.mp hz with h' | h'
      · rwa [h']
      · exact hP z h'

theorem getBulkPairDataBody_ok (pairList : List String) (price : Rat) (o : BulkOracles)
    (b1 b2 bWeek : Nat) (res : List ParsedPair)
    (h : getBulkPairDataBody pairList price o b1 b2 bWeek = .ok res) :
    ∃ cur, o.fetchCurrent = .ok cur ∧ res.length = cur.length := by
  unfold getBulkPairDataBody at h
  cases hc : o.fetchCurrent <;> rw [hc] at h
  · exact absurd h (by simp)
  · cases h1 : o.fetchHistorical b1 <;> rw [h1] at h
    · exact absurd h (by simp)
    · cases h2 : o.fetchHistorical b2 <;> rw [h2] at h
      · exact absurd h (by simp)
      · cases h3 : o.fetchHistorical bWeek <;> rw [h3] at h
        · exact absurd h (by simp)
        · exact ⟨_, rfl, exceptMapM_ok_length _ _ _ h⟩

/-- The oracle set of the C4 counterexample: block resolution throws,
everything else succeeds. -/
def oFail : BulkOracles :=
  { resolveBlocks := .error "block resolution failed"
    fetchCurrent := .ok []
    fetchHistorical := fun _ => .ok []
    fetchSingle := fun _ _ => .ok none
    aggregate := .ok []
    decode := fun _ => .ok 25 }

/-- C4 counterexample: when no override blocks are supplied and the
timestamp-to-block resolution stage throws, the exception is *not* caught
by `getBulkPairData` — it propagates to the caller instead of being logged
and turned into an undefined/empty return, because the resolution happens
before the `try` block. -/
theorem bulk_outer_catch_cex :
    getBulkPairData ["0xabc"] 1 oFail none = .error "block resolution failed" ∧
    ∀ r, getBulkPairData ["0xabc"] 1 oFail none ≠ .ok r :=
  ⟨rfl, fun r h => by simp [getBulkPairData, oFail] at h⟩

/-- C4 amended: once the reference blocks are available (override blocks
supplied, or the resolution stage returns), any exception thrown by the
fetch stages inside the `try` (current bulk fetch, historical bulk
fetches, per-pair fallbacks) is caught, and the call returns `undefined`
for the whole batch; when a batch is returned it has one derived record
per current snapshot — never a partial batch. -/
theorem bulk_no_partial_batch (pairList : List String) (price : Rat) (o : BulkOracles)
    (ob : Option (Nat × Nat × Nat))
    (h : ob.isSome ∨ ∃ bs, o.resolveBlocks = .ok bs) :
    (∃ r, getBulkPairData pairList price o ob = .ok r) ∧
    ∀ l, getBulkPairData pairList price o ob = .ok (some l) →
      ∃ cur, o.fetchCurrent = .ok cur ∧ l.length = cur.length := by
  obtain ⟨bs, hbs⟩ : ∃ bs,
      (match ob with | some bs => Except.ok bs | none => o.resolveBlocks) = .ok bs := by
    cases ob with
    | some bs => exact ⟨bs, rfl⟩
    | none =>
      rcases h with h | ⟨bs, hbs⟩
      · simp at h
      · exact ⟨bs, hbs⟩
  obtain ⟨b1, b2, bWeek⟩ := bs
  constructor
  · cases hbody : getBulkPairDataBody pairList price o b1 b2 bWeek with
    | error e => exact ⟨none, by simp [getBulkPairData, hbs, hbody]⟩
    | ok res => exact ⟨some res, by simp [getBulkPairData, hbs, hbody]⟩
  · intro l hl
    simp only [getBulkPairData, hbs] at hl
    cases hbody : getBulkPairDataBody pairList price o b1 b2 bWeek <;> rw [hbody] at hl
    · exact absurd hl (by simp)
    · simp at hl
      subst hl
      exact getBulkPairDataBody_ok pairList price o b1 b2 bWeek _ hbody

/-- The oracle set of the C4 witness: blocks resolve, the current fetch
succeeds with one pair, the one-day historical bulk query throws. -/
def oCaught : BulkOracles :=
  { resolveBlocks := .ok (100, 90, 10)
    fetchCurrent := .ok [pairCex]
    fetchHistorical := fun _ => .error "subgraph query failed"
    fetchSingle := fun _ _ => .ok none
    aggregate := .ok []
    decode := fun _ => .ok 25 }

theorem bulk_no_partial_batch_witness :
    (∃ r, getBulkPairData ["0xabc"] 1 oCaught none = .ok r) ∧
    ∀ l, getBulkPairData ["0xabc"] 1 oCaught none = .ok (some l) →
      ∃ cur, oCaught.fetchCurrent = .ok cur ∧ l.length = cur.length :=
  bulk_no_partial_batch ["0xabc"] 1 oCaught none (Or.inr ⟨(100, 90, 10), rfl⟩)

theorem pairWithHistory_swapFee (fetchSingle : String → Nat → Except Err (Option PairBulk))
    (b1 b2 bWeek : Nat) (swapFees : String → Option Nat) (price : Rat)
    (oneDayIdx twoDayIdx oneWeekIdx : String → Option PairBulk) (pair : PairBulk)
    (rec : ParsedPair)
    (h : pairWithHistory fetchSingle b1 b2 bWeek swapFees price
      oneDayIdx twoDayIdx oneWeekIdx pair = .ok rec) :
    rec.id = pair.id ∧
    rec.swapFee =
      match swapFees pair.id with
      | some f => if f = 0 then 25 else f
      | none => 25 := by
  unfold pairWithHistory at h
  cases h1 : histOf oneDayIdx fetchSingle pair.id b1 <;> rw [h1] at h
  · exact absurd h (by simp)
  · cases h2 : histOf twoDayIdx fetchSingle pair.id b2 <;> rw [h2] at h
    · exact absurd h (by simp)
    · cases h3 : histOf oneWeekIdx fetchSingle pair.id bWeek <;> rw [h3] at h
      · exact absurd h (by simp)
      · simp at h
        rw [← h]
        exact ⟨by simp [parseData], rfl⟩

theorem histOf_ok (idx : String → Option PairBulk)
    (fetchSingle : String → Nat → Except Err (Option PairBulk)) (id : String) (b : Nat)
    (hf : ∀ id' b', ∃ s, fetchSingle id' b' = .ok s) :
    ∃ s, histOf idx fetchSingle id b = .ok s := by
  unfold histOf
  cases idx id with
  | some s => exact ⟨some s, rfl⟩
  | none => exact hf id b

theorem pairWithHistory_ok (fetchSingle : String → Nat → Except Err (Option PairBulk))
    (b1 b2 bWeek : Nat) (swapFees : String → Option Nat) (price : Rat)
    (oneDayIdx twoDayIdx oneWeekIdx : String → Option PairBulk) (pair : PairBulk)
    (hf : ∀ id' b', ∃ s, fetchSingle id' b' = .ok s) :
    ∃ rec, pairWithHistory fetchSingle b1 b2 bWeek swapFees price
        oneDayIdx twoDayIdx oneWeekIdx pair = .ok rec ∧
      rec.swapFee =
        (match swapFees pair.id with
        | some f => if f = 0 then 25 else f
        | none => 25) := by
  obtain ⟨s1, hs1⟩ := histOf_ok oneDayIdx fetchSingle pair.id b1 hf
  obtain ⟨s2, hs2⟩ := histOf_ok twoDayIdx fetchSingle pair.id b2 hf
  obtain ⟨s3, hs3⟩ := histOf_ok oneWeekIdx fetchSingle pair.id bWeek hf
  have heq : pairWithHistory fetchSingle b1 b2 bWeek swapFees price
      oneDayIdx twoDayIdx oneWeekIdx pair =
      .ok { parseData pair s1 s2 s3 price b1 with swapFee :=
        (match swapFees pair.id with
        | some f => if f = 0 then 25 else f
        | none => 25) } := by
    unfold pairWithHistory
    rw [hs1, hs2, hs3]
  exact ⟨_, heq, rfl⟩

/-- C7: for a non-empty pair list, every record of a successful batch
carries either a fee from the batched multicall fee map or exactly the
default 25; and a failed fee lookup never fails the batch — with the
multicall throwing, the other stages still produce the full batch, every
record defaulting to 25. -/
theorem swap_fee_default :
    (∀ (pairList : List String) (price : Rat) (o : BulkOracles)
        (ob : Option (Nat × Nat × Nat)) (l : List ParsedPair),
      pairList ≠ [] →
      getBulkPairData pairList price o ob = .ok (some l) →
      ∀ rec ∈ l, rec.swapFee = 25 ∨
        ∃ f, getPairsSwapFee pairList o.aggregate o.decode rec.id = some f ∧
          rec.swapFee = f) ∧
    (∀ (pairList : List String) (price : Rat) (o : BulkOracles)
        (ob : Option (Nat × Nat × Nat)) (bs : Nat × Nat × Nat)
        (cur : List PairBulk) (msg : Err),
      pairList ≠ [] →
      o.aggregate = .error msg →
      (ob = some bs ∨ (ob = none ∧ o.resolveBlocks = .ok bs)) →
      o.fetchCurrent = .ok cur →
      (∀ b, ∃ lh, o.fetchHistorical b = .ok lh) →
      (∀ id b, ∃ s, o.fetchSingle id b = .ok s) →
      ∃ l, getBulkPairData pairList price o ob = .ok (some l) ∧ l.length = cur.length ∧
        ∀ rec ∈ l, rec.swapFee = 25) := by
  constructor
  · intro pairList price o ob l hne hl rec hrec
    have hbody : ∃ b1 b2 bWeek,
        getBulkPairDataBody pairList price o b1 b2 bWeek = .ok l := by
      cases hbs : (match ob with | some bs => Except.ok bs | none => o.resolveBlocks) with
      | error e =>
        simp only [getBulkPairData, hbs] at hl
        exact absurd hl (by simp)
      | ok bs =>
        obtain ⟨b1, b2, bWeek⟩ := bs
        simp only [getBulkPairData, hbs] at hl
        cases hbody : getBulkPairDataBody pairList price o b1 b2 bWeek <;> rw [hbody] at hl
        · exact absurd hl (by simp)
        · simp at hl
          subst hl
          exact ⟨b1, b2, bWeek, hbody⟩
    obtain ⟨b1, b2, bWeek, hbody⟩ := hbody
    unfold getBulkPairDataBody at hbody
    cases hc : o.fetchCurrent <;> rw [hc] at hbody
    · exact absurd hbody (by simp)
    · cases h1 : o.fetchHistorical b1 <;> rw [h1] at hbody
      · exact absurd hbody (by simp)
      · cases h2 : o.fetchHistorical b2 <;> rw [h2] at hbody
        · exact absurd hbody (by simp)
        · cases h3 : o.fetchHistorical bWeek <;> rw [h3] at hbody
          · exact absurd hbody (by simp)
          · obtain ⟨pair, _, hpair⟩ := exceptMapM_ok_mem _ _ _ hbody rec hrec
            obtain ⟨hid, hfee⟩ := pairWithHistory_swapFee _ _ _ _ _ _ _ _ _ _ _ hpair
            rw [← hid] at hfee
            cases hfees : getPairsSwapFee pairList o.aggregate o.decode rec.id with
            | none =>
              rw [hfees] at hfee
              exact Or.inl hfee
            | some f =>
              rw [hfees] at hfee
              by_cases hf0 : f = 0
              · simp [hf0] at hfee
                exact Or.inl hfee
              · simp [hf0] at hfee
                exact Or.inr ⟨f, rfl, hfee⟩
  · intro pairList price o ob bs cur msg hne hagg hob hc hh hs
    obtain ⟨b1, b2, bWeek⟩ := bs
    have hfees : getPairsSwapFee pairList o.aggregate o.decode = fun _ => none := by
      simp [getPairsSwapFee, hagg]
    obtain ⟨lh1, hh1⟩ := hh b1
    obtain ⟨lh2, hh2⟩ := hh b2
    obtain ⟨lh3, hh3⟩ := hh bWeek
    have hall : ∀ pair ∈ cur, ∃ rec : ParsedPair,
        pairWithHistory o.fetchSingle b1 b2 bWeek
          (getPairsSwapFee pairList o.aggregate o.decode) price
          (indexById lh1) (indexById lh2) (indexById lh3) pair = .ok rec ∧
        rec.swapFee = 25 := by
      intro pair _
      obtain ⟨rec, hrec, hfee⟩ :=
        pairWithHistory_ok o.fetchSingle b1 b2 bWeek
          (getPairsSwapFee pairList o.aggregate o.decode) price
          (indexById lh1) (indexById lh2) (indexById lh3) pair hs
      refine ⟨rec, hrec, ?_⟩
      rw [hfee, hfees]
    obtain ⟨l, hmap, hlen, hP⟩ :=
      exceptMapM_ok_of_forall _ (fun rec : ParsedPair => rec.swapFee = 25) cur hall
    refine ⟨l, ?_, hlen, hP⟩
    have hbody : getBulkPairDataBody pairList price o b1 b2 bWeek = .ok l := by
      unfold getBulkPairDataBody
      rw [hc, hh1, hh2, hh3]
      exact hmap
    rcases hob with h | ⟨h1, h2⟩
    · subst h
      simp [getBulkPairData, hbody]
    · subst h1
      simp [getBulkPairData, h2, hbody]

/-- Oracles for a fully successful run: one pair, multicall returns one
blob decoding to fee 30. -/
def oSwapW : BulkOracles :=
  { resolveBlocks := .ok (100, 90, 10)
    fetchCurrent := .ok [pairCex]
    fetchHistorical := fun _ => .ok []
    fetchSingle := fun _ _ => .ok none
    aggregate := .ok [7]
    decode := fun _ => .ok 30 }

/-- Oracles for a run whose multicall throws while everything else
succeeds. -/
def oFeeFail : BulkOracles :=
  { resolveBlocks := .ok (100, 90, 10)
    fetchCurrent := .ok [pairCex]
    fetchHistorical := fun _ => .ok []
    fetchSingle := fun _ _ => .ok none
    aggregate := .error "multicall failed"
    decode := fun _ => .ok 30 }

def recW : ParsedPair :=
  { id := "0xabc", volumeUSD := 10, untrackedVolumeUSD := 10, reserveUSD := 5,
    trackedReserveNativeCurrency := 5, createdAtBlockNumber := 100,
    oneDayVolumeUSD := 10, oneWeekVolumeUSD := 10, volumeChangeUSD := 0,
    oneDayVolumeUntracked := 10, volumeChangeUntracked := 0,
    trackedReserveUSD := 5, liquidityChangeUSD := 0, swapFee := 30 }

theorem swap_fee_default_run :
    getBulkPairData ["0xabc"] 1 oSwapW none = .ok (some [recW]) := by
  norm_num [getBulkPairData, getBulkPairDataBody, oSwapW, getPairsSwapFee, decodeFeesLoop,
    exceptMapM, pairWithHistory, histOf, indexById, parseData, get2DayPercentChange,
    getPercentChange, pairCex, recW, Function.update]

theorem swap_fee_default_witness :
    (∀ rec ∈ [recW], rec.swapFee = 25 ∨
      ∃ f, getPairsSwapFee ["0xabc"] oSwapW.aggregate oSwapW.decode rec.id = some f ∧
        rec.swapFee = f) ∧
    (∃ l, getBulkPairData ["0xabc"] 1 oFeeFail none = .ok (some l) ∧
      l.length = [pairCex].length ∧ ∀ rec ∈ l, rec.swapFee = 25) :=
  ⟨swap_fee_default.1 ["0xabc"] 1 oSwapW none [recW] (by simp) swap_fee_default_run,
    swap_fee_default.2 ["0xabc"] 1 oFeeFail none (100, 90, 10) [pairCex] "multicall failed"
      (by simp) rfl (Or.inr ⟨rfl, rfl⟩) rfl (fun _ => ⟨[], rfl⟩) (fun _ _ => ⟨none, rfl⟩)⟩

/-! ### Daily chart gap-fill (`getPairChartData`, lines 401-468)

The fetched `pairDayDatas` pages are the `raw` input (the pagination loop
only concatenates pages).  The function converts each point in place,
records every point's calendar-day index (`(date / 86400).toFixed(0)`,
i.e. round-half-up) in a set, then walks day by day from the *first
fetched* point's date to now minus one day, appending a synthesized
zero-volume point for each day index not in the set, carrying
`latestLiquidityUSD` forward and advancing `index` through the fetched
array when a day is present.  Finally it sorts by date. -/

def oneDay : Nat := 86400

/-- `(date / oneDay).toFixed(0)`: round-half-up of `date / 86400`. -/
def jsDayIndex (date : Nat) : Nat := (date + 43200) / 86400

structure RawDayData where
  date : Nat
  dailyVolumeUSD : Rat
  reserveUSD : Rat
deriving DecidableEq

structure ChartPoint where
  date : Nat
  dailyVolumeUSD : Rat
  reserveUSD : Rat
  utilization : Rat
deriving DecidableEq

/-- The in-place `forEach` conversion: parse the two amounts and compute
the utilization percentage. -/
def processPoint (p : RawDayData) : ChartPoint :=
  { date := p.date, dailyVolumeUSD := p.dailyVolumeUSD, reserveUSD := p.reserveUSD,
    utilization := (if p.reserveUSD = 0 then 0 else p.dailyVolumeUSD / p.reserveUSD) * 100 }

/-- The synthesized points the gap-fill `while` loop pushes into `data`.
When the loop hits a present day it advances `index` and reloads
`latestLiquidityUSD` from `dayIndexArray[index]`; an out-of-bounds access
there is a TypeError (caught by the enclosing `catch`), after which
nothing more is pushed — `fillOk` below tracks whether that happened. -/
def fillPushed (daySet : List Nat) (arr : List ChartPoint) (stopTime : Nat)
    (timestamp index : Nat) (latest : Rat) : List ChartPoint :=
  if timestamp < stopTime then
    if jsDayIndex (timestamp + oneDay) ∈ daySet then
      match arr.get? index with
      | some p => fillPushed daySet arr stopTime (timestamp + oneDay) (index + 1) p.reserveUSD
      | none => []
    else
      ⟨timestamp + oneDay, 0, latest, 0⟩ ::
        fillPushed daySet arr stopTime (timestamp + oneDay) index latest
  else []
termination_by stopTime - timestamp
decreasing_by
  all_goals simp only [oneDay]
  all_goals omega

/-- Whether the gap-fill loop runs to completion without the TypeError
(same control flow as `fillPushed`). -/
def fillOk (daySet : List Nat) (arr : List ChartPoint) (stopTime : Nat)
    (timestamp index : Nat) : Bool :=
  if timestamp < stopTime then
    if jsDayIndex (timestamp + oneDay) ∈ daySet then
      match arr.get? index with
      | some _ => fillOk daySet arr stopTime (timestamp + oneDay) (index + 1)
      | none => false
    else fillOk daySet arr stopTime (timestamp + oneDay) index
  else true
termination_by stopTime - timestamp
decreasing_by
  all_goals simp only [oneDay]
  all_goals omega

def insertByDate (p : ChartPoint) : List ChartPoint → List ChartPoint
  | [] => [p]
  | q :: rest => if p.date ≤ q.date then p :: q :: rest else q :: insertByDate p rest

/-- `data.sort((a, b) => parseInt(a.date) > parseInt(b.date) ? 1 : -1)`: an
ascending sort by date (the comparator is consistent exactly when dates are
distinct, which holds for day-aligned inputs). -/
def sortByDate : List ChartPoint → List ChartPoint
  | [] => []
  | p :: rest => insertByDate p (sortByDate rest)

/-- `getPairChartData` (lines 401-468) after the fetch: `startTime` is the
`utcStartTime.unix() - 1` fallback used only when the first point's date is
falsy, and `endTime` is `utcEndTime.unix()`. -/
def getPairChartData (raw : List RawDayData) (startTime endTime : Nat) : List ChartPoint :=
  let processed := raw.map processPoint
  let daySet := raw.map (fun p => jsDayIndex p.date)
  match processed with
  | [] => []
  | h :: _ =>
    let t0 := if h.date = 0 then startTime else h.date
    let pushed := fillPushed daySet processed (endTime - oneDay) t0 1 h.reserveUSD
    if fillOk daySet processed (endTime - oneDay) t0 1 then sortByDate (processed ++ pushed)
    else processed ++ pushed

/-- The most recently known reserve strictly before timestamp `d` (the
value `latestLiquidityUSD` carries forward). -/
def carriedReserve (raw : List RawDayData) (d : Nat) : Rat :=
  match (raw.filter (fun p => p.date < d)).getLast? with
  | some p => p.reserveUSD
  | none => 0

theorem fillPushed_stop (daySet : List Nat) (arr : List ChartPoint)
    (stopTime timestamp index : Nat) (latest : Rat) (h : ¬timestamp < stopTime) :
    fillPushed daySet arr stopTime timestamp index latest = [] := by
  rw [fillPushed]
  rw [if_neg h]

theorem fillPushed_synth (daySet : List Nat) (arr : List ChartPoint)
    (stopTime timestamp index : Nat) (latest : Rat) (h : timestamp < stopTime)
    (h2 : jsDayIndex (timestamp + oneDay) ∉ daySet) :
    fillPushed daySet arr stopTime timestamp index latest =
      ⟨timestamp + oneDay, 0, latest, 0⟩ ::
        fillPushed daySet arr stopTime (timestamp + oneDay) index latest := by
  rw [fillPushed]
  rw [if_pos h, if_neg h2]

theorem fillPushed_present (daySet : List Nat) (arr : List ChartPoint)
    (stopTime timestamp index : Nat) (latest : Rat) (p : ChartPoint)
    (h : timestamp < stopTime) (h2 : jsDayIndex (timestamp + oneDay) ∈ daySet)
    (h3 : arr.get? index = some p) :
    fillPushed daySet arr stopTime timestamp index latest =
      fillPushed daySet arr stopTime (timestamp + oneDay) (index + 1) p.reserveUSD := by
  rw [fillPushed]
  rw [if_pos h, if_pos h2, h3]

theorem fillOk_stop (daySet : List Nat) (arr : List ChartPoint)
    (stopTime timestamp index : Nat) (h : ¬timestamp < stopTime) :
    fillOk daySet arr stopTime timestamp index = true := by
  rw [fillOk]
  rw [if_neg h]

theorem fillOk_synth (daySet : List Nat) (arr : List ChartPoint)
    (stopTime timestamp index : Nat) (h : timestamp < stopTime)
    (h2 : jsDayIndex (timestamp + oneDay) ∉ daySet) :
    fillOk daySet arr stopTime timestamp index =
      fillOk daySet arr stopTime (timestamp + oneDay) index := by
  rw [fillOk]
  rw [if_pos h, if_neg h2]

theorem fillOk_present (daySet : List Nat) (arr : List ChartPoint)
    (stopTime timestamp index : Nat) (p : ChartPoint)
    (h : timestamp < stopTime) (h2 : jsDayIndex (timestamp + oneDay) ∈ daySet)
    (h3 : arr.get? index = some p) :
    fillOk daySet arr stopTime timestamp index =
      fillOk daySet arr stopTime (timestamp + oneDay) (index + 1) := by
  rw [fillOk]
  rw [if_pos h, if_pos h2, h3]

/-- The unordered input of the C1 counterexample: the fetched points are
for day 3 and then day 1 (the fill loop starts at the first *fetched*
point and never visits day 2). -/
def rawCex : List RawDayData := [⟨259200, 1, 50⟩, ⟨86400, 2, 60⟩]

/-- C1 counterexample: for the unordered point set {day 3, day 1} with
"now" at day 5, the output dates are `[day 1, day 3, day 4]` — day 2 lies
inside the covered span but is missing, so the series has a date gap and
does not contain one point for every calendar day of the span. -/
def pCex1 : ChartPoint := ⟨259200, 1, 50, 2⟩

def pCex2 : ChartPoint := ⟨86400, 2, 60, 10 / 3⟩

def pCex3 : ChartPoint := ⟨345600, 0, 50, 0⟩

theorem chart_gap_fill_cex_run :
    getPairChartData rawCex 0 432000 = [pCex2, pCex1, pCex3] := by
  have hproc : rawCex.map processPoint = [pCex1, pCex2] := by
    norm_num [rawCex, processPoint, pCex1, pCex2]
  have hset : rawCex.map (fun p => jsDayIndex p.date) = [3, 1] := by
    norm_num [rawCex, jsDayIndex]
  have hpush : fillPushed [3, 1] [pCex1, pCex2] 345600 259200 1 50 = [pCex3] := by
    rw [fillPushed_synth [3, 1] [pCex1, pCex2] 345600 259200 1 50 (by decide) (by decide)]
    rw [fillPushed_stop [3, 1] [pCex1, pCex2] 345600 (259200 + oneDay) 1 50 (by decide)]
    norm_num [oneDay, pCex3]
  have hok : fillOk [3, 1] [pCex1, pCex2] 345600 259200 1 = true := by
    rw [fillOk_synth [3, 1] [pCex1, pCex2] 345600 259200 1 (by decide) (by decide)]
    rw [fillOk_stop [3, 1] [pCex1, pCex2] 345600 (259200 + oneDay) 1 (by decide)]
  have hd : pCex1.date = 259200 := rfl
  have hr : pCex1.reserveUSD = 50 := rfl
  simp only [getPairChartData, hproc, hset]
  norm_num [oneDay, hd, hr]
  rw [hpush, hok]
  norm_num [sortByDate, insertByDate, pCex1, pCex2, pCex3]

/-- C1 counterexample: for the unordered fetched point set {day 3, day 1}
with "now" at day 5, the output dates are `[day 1, day 3, day 4]` — day 2
lies inside the covered span but is missing, so the returned series has a
date gap and does not contain one point for every calendar day of the
span; the code neither deduplicates nor reorders before walking from the
first *fetched* point. -/
theorem chart_gap_fill_cex :
    ((getPairChartData rawCex 0 432000).map (fun p => p.date))
        = [86400, 259200, 345600] ∧
    ¬ List.Chain' (fun a b => b = a + oneDay)
        ((getPairChartData rawCex 0 432000).map (fun p => p.date)) ∧
    ∀ p ∈ getPairChartData rawCex 0 432000, p.date ≠ 172800 := by
  rw [chart_gap_fill_cex_run]
  refine ⟨by norm_num [pCex1, pCex2, pCex3], ?_, by norm_num [pCex1, pCex2, pCex3]⟩
  intro hchain
  norm_num [pCex1, pCex2, pCex3, oneDay, List.chain'_cons] at hchain

theorem jsDayIndex_mul (k : Nat) : jsDayIndex (k * 86400) = k := by
  unfold jsDayIndex
  rw [Nat.mul_comm k 86400, Nat.mul_add_div (by norm_num)]
  norm_num

theorem insertByDate_perm (p : ChartPoint) (l : List ChartPoint) :
    List.Perm (insertByDate p l) (p :: l) := by
  induction l with
  | nil => exact List.Perm.refl _
  | cons q rest ih =>
    rw [insertByDate]
    by_cases h : p.date ≤ q.date
    · rw [if_pos h]
    · rw [if_neg h]
      exact List.Perm.trans (ih.cons q) (List.Perm.swap p q rest)

theorem sortByDate_perm (l : List ChartPoint) : List.Perm (sortByDate l) l := by
  induction l with
  | nil => exact List.Perm.refl _
  | cons p rest ih =>
    rw [sortByDate]
    exact (insertByDate_perm p (sortByDate rest)).trans (ih.cons p)

theorem insertByDate_sorted (p : ChartPoint) (l : List ChartPoint)
    (h : l.Pairwise (fun a b => a.date ≤ b.date)) :
    (insertByDate p l).Pairwise (fun a b => a.date ≤ b.date) := by
  induction l with
  | nil => simp [insertByDate]
  | cons q rest ih =>
    rw [insertByDate]
    rw [List.pairwise_cons] at h
    by_cases hpq : p.date ≤ q.date
    · rw [if_pos hpq]
      refine List.Pairwise.cons ?_ (List.Pairwise.cons h.1 h.2)
      intro x hx
      rcases List.mem_cons.mp hx with hx | hx
      · rw [hx]; exact hpq
      · exact le_trans hpq (h.1 x hx)
    · rw [if_neg hpq]
      refine List.Pairwise.cons ?_ (ih h.2)
      intro x hx
      rcases List.mem_cons.mp ((insertByDate_perm p rest).mem_iff.mp hx) with hx | hx
      · rw [hx]; exact le_of_not_le hpq
      · exact h.1 x hx

theorem sortByDate_sorted (l : List ChartPoint) :
    (sortByDate l).Pairwise (fun a b => a.date ≤ b.date) := by
  induction l with
  | nil => simp [sortByDate]
  | cons p rest ih => exact insertByDate_sorted p (sortByDate rest) ih

/-- Two strictly increasing lists of naturals with the same members are
equal. -/
theorem sorted_nat_eq (l₁ l₂ : List Nat)
    (h₁ : l₁.Pairwise (· < ·)) (h₂ : l₂.Pairwise (· < ·))
    (hmem : ∀ x, x ∈ l₁ ↔ x ∈ l₂) : l₁ = l₂ := by
  have n₁ : l₁.Nodup := h₁.imp Nat.ne_of_lt
  have n₂ : l₂.Nodup := h₂.imp Nat.ne_of_lt
  have perm : List.Perm l₁ l₂ := by
    rw [List.perm_iff_count]
    intro a
    by_cases ha : a ∈ l₁
    · rw [List.count_eq_one_of_mem n₁ ha, List.count_eq_one_of_mem n₂ ((hmem a).mp ha)]
    · rw [List.count_eq_zero_of_not_mem ha,
        List.count_eq_zero_of_not_mem (fun h => ha ((hmem a).mpr h))]
  exact List.eq_of_perm_of_sorted perm (h₁.imp le_of_lt) (h₂.imp le_of_lt)

theorem pairwise_lt_range' (a n : Nat) : (List.range' a n).Pairwise (· < ·) := by
  induction n generalizing a with
  | zero => simp
  | succ n ih =>
    rw [List.range'_succ]
    refine List.Pairwise.cons ?_ (ih (a + 1))
    intro x hx
    have := (List.mem_range'_1.mp hx).1
    omega

theorem daySet_mem (raw : List RawDayData) (hdvd : ∀ p ∈ raw, 86400 ∣ p.date) (k : Nat) :
    k ∈ raw.map (fun p => jsDayIndex p.date) ↔ ∃ p ∈ raw, p.date = k * 86400 := by
  rw [List.mem_map]
  constructor
  · rintro ⟨p, hp, hk⟩
    obtain ⟨c, hc⟩ := hdvd p hp
    refine ⟨p, hp, ?_⟩
    subst hk
    rw [hc, Nat.mul_comm 86400 c, jsDayIndex_mul]
  · rintro ⟨p, hp, hk⟩
    exact ⟨p, hp, by rw [hk, jsDayIndex_mul]⟩

/-- Specification of the gap-fill loop under well-formed input: starting at
day `m` with the fetched prefix `A` consumed (`index = A.length`,
`latestLiquidityUSD` = last reserve of `A`), the loop pushes exactly one
zero-volume point for every day of `(m, E-1]` whose index is not in the
day set, carrying the most recent known reserve. -/
theorem fillPushed_spec (raw : List RawDayData) (E : Nat)
    (hmul : ∀ p ∈ raw, 86400 ∣ p.date ∧ 86400 ≤ p.date ∧ p.date ≤ (E - 1) * 86400)
    (hsort : (raw.map fun p => p.date).Pairwise (· < ·)) :
    ∀ (n m : Nat) (A B : List RawDayData) (l : Rat),
      n = (E - 1) - m →
      raw = A ++ B →
      (∀ p ∈ A, p.date ≤ m * 86400) →
      (∀ p ∈ B, m * 86400 < p.date) →
      A.getLast?.map (fun p => p.reserveUSD) = some l →
      fillPushed (raw.map fun p => jsDayIndex p.date) (raw.map processPoint)
          ((E - 1) * 86400) (m * 86400) A.length l =
        ((List.range' (m + 1) ((E - 1) - m)).filter
            (fun d => decide (d ∉ raw.map fun p => jsDayIndex p.date))).map
          (fun d => (⟨d * 86400, 0, carriedReserve raw (d * 86400), 0⟩ : ChartPoint)) := by
  have hdvd : ∀ p ∈ raw, 86400 ∣ p.date := fun p hp => (hmul p hp).1
  intro n
  induction n with
  | zero =>
    intro m A B l hn hAB hA hB hl
    have hstop : ¬ m * 86400 < (E - 1) * 86400 := by omega
    rw [fillPushed_stop _ _ _ _ _ _ hstop]
    rw [show (E - 1) - m = 0 by omega]
    simp
  | succ n ih =>
    intro m A B l hn hAB hA hB hl
    have hlt : m * 86400 < (E - 1) * 86400 := by omega
    have hstep : m * 86400 + oneDay = (m + 1) * 86400 := by simp [oneDay]; ring
    have hnn : (E - 1) - (m + 1) = n := by omega
    by_cases hd : jsDayIndex (m * 86400 + oneDay) ∈ (raw.map fun p => jsDayIndex p.date)
    · -- day m+1 is present among the fetched points
      have hd' : (m + 1) ∈ raw.map (fun p => jsDayIndex p.date) := by
        rwa [hstep, jsDayIndex_mul] at hd
      obtain ⟨p, hpraw, hpdate⟩ := (daySet_mem raw hdvd (m + 1)).mp hd'
      have hpB : p ∈ B := by
        rcases List.mem_append.mp (hAB ▸ hpraw) with h | h
        · have := hA p h; omega
        · exact h
      obtain ⟨q, B', rfl⟩ : ∃ q B', B = q :: B' := by
        cases B with
        | nil => simp at hpB
        | cons q B' => exact ⟨q, B', rfl⟩
      have hqraw : q ∈ raw := by
        rw [hAB]; exact List.mem_append_right A (List.mem_cons_self q B')
      have hq_ge : (m + 1) * 86400 ≤ q.date := by
        have h1 := hB q (List.mem_cons_self q B')
        obtain ⟨c, hc⟩ := hdvd q hqraw
        omega
      have hqtail : ∀ y ∈ B', q.date < y.date := by
        intro y hy
        have hpw : ((q :: B').map fun p => p.date).Pairwise (· < ·) :=
          ((List.pairwise_append.mp (by rwa [hAB, List.map_append] at hsort)).2.1)
        exact (List.pairwise_cons.mp hpw).1 y.date (List.mem_map_of_mem _ hy)
      have hqp : q.date = (m + 1) * 86400 := by
        rcases List.mem_cons.mp hpB with h | h
        · rw [← h]; exact hpdate
        · have := hqtail p h; omega
      have hget : (raw.map processPoint).get? A.length = some (processPoint q) := by
        rw [List.get?_map, hAB, List.get?_append_right (le_refl A.length)]
        simp
      rw [fillPushed_present _ _ _ _ _ _ (processPoint q) hlt hd hget]
      rw [hstep]
      have hres : (processPoint q).reserveUSD = q.reserveUSD := rfl
      have hlen : A.length + 1 = (A ++ [q]).length := by simp
      rw [hres, hlen]
      have hrec := ih (m + 1) (A ++ [q]) B' q.reserveUSD (by omega)
        (by rw [hAB]; simp)
        (by intro x hx
            rcases List.mem_append.mp hx with h | h
            · have := hA x h; omega
            · rw [List.mem_singleton.mp h]; omega)
        (by intro y hy
            have := hqtail y hy
            omega)
        (by rw [List.getLast?_concat]; rfl)
      rw [hrec, hnn]
      rw [show (E - 1) - m = n + 1 from hn.symm, List.range'_succ, List.filter_cons]
      simp [hd']
    · -- day m+1 is missing: a point is synthesized
      have hd' : (m + 1) ∉ raw.map (fun p => jsDayIndex p.date) := by
        rwa [hstep, jsDayIndex_mul] at hd
      rw [fillPushed_synth _ _ _ _ _ _ hlt hd]
      rw [hstep]
      have hfilter : raw.filter (fun p => p.date < (m + 1) * 86400) = A := by
        rw [hAB, List.filter_append]
        have h1 : A.filter (fun p => p.date < (m + 1) * 86400) = A := by
          rw [List.filter_eq_self]
          intro p hp
          have := hA p hp
          simp
          omega
        have h2 : B.filter (fun p => p.date < (m + 1) * 86400) = [] := by
          rw [List.filter_eq_nil]
          intro p hp
          have h3 := hB p hp
          obtain ⟨c, hc⟩ := hdvd p (by rw [hAB]; exact List.mem_append_right A hp)
          simp
          omega
        rw [h1, h2, List.append_nil]
      have hlcar : carriedReserve raw ((m + 1) * 86400) = l := by
        unfold carriedReserve
        rw [hfilter]
        cases hAL : A.getLast? with
        | none => rw [hAL] at hl; simp at hl
        | some p0 =>
          rw [hAL] at hl
          simp at hl
          exact hl
      have hB' : ∀ p ∈ B, (m + 1) * 86400 < p.date := by
        intro p hp
        have h1 := hB p hp
        have hpraw : p ∈ raw := by rw [hAB]; exact List.mem_append_right A hp
        obtain ⟨c, hc⟩ := hdvd p hpraw
        have hne : p.date ≠ (m + 1) * 86400 := by
          intro he
          exact hd' ((daySet_mem raw hdvd (m + 1)).mpr ⟨p, hpraw, he⟩)
        omega
      have hrec := ih (m + 1) A B l (by omega) hAB
        (fun p hp => le_trans (hA p hp) (by omega)) hB' hl
      rw [hrec, hnn]
      rw [show (E - 1) - m = n + 1 from hn.symm, List.range'_succ, List.filter_cons]
      simp [hd', hlcar]

/-- Under the same well-formedness conditions the loop never dereferences
`dayIndexArray[index]` out of bounds, so no TypeError occurs and the data
is sorted before being returned. -/
theorem fillOk_spec (raw : List RawDayData) (E : Nat)
    (hmul : ∀ p ∈ raw, 86400 ∣ p.date ∧ 86400 ≤ p.date ∧ p.date ≤ (E - 1) * 86400)
    (hsort : (raw.map fun p => p.date).Pairwise (· < ·)) :
    ∀ (n m : Nat) (A B : List RawDayData),
      n = (E - 1) - m →
      raw = A ++ B →
      (∀ p ∈ A, p.date ≤ m * 86400) →
      (∀ p ∈ B, m * 86400 < p.date) →
      fillOk (raw.map fun p => jsDayIndex p.date) (raw.map processPoint)
          ((E - 1) * 86400) (m * 86400) A.length = true := by
  have hdvd : ∀ p ∈ raw, 86400 ∣ p.date := fun p hp => (hmul p hp).1
  intro n
  induction n with
  | zero =>
    intro m A B hn hAB hA hB
    exact fillOk_stop _ _ _ _ _ (by omega)
  | succ n ih =>
    intro m A B hn hAB hA hB
    have hlt : m * 86400 < (E - 1) * 86400 := by omega
    have hstep : m * 86400 + oneDay = (m + 1) * 86400 := by simp [oneDay]; ring
    by_cases hd : jsDayIndex (m * 86400 + oneDay) ∈ (raw.map fun p => jsDayIndex p.date)
    · have hd' : (m + 1) ∈ raw.map (fun p => jsDayIndex p.date) := by
        rwa [hstep, jsDayIndex_mul] at hd
      obtain ⟨p, hpraw, hpdate⟩ := (daySet_mem raw hdvd (m + 1)).mp hd'
      have hpB : p ∈ B := by
        rcases List.mem_append.mp (hAB ▸ hpraw) with h | h
        · have := hA p h; omega
        · exact h
      obtain ⟨q, B', rfl⟩ : ∃ q B', B = q :: B' := by
        cases B with
        | nil => simp at hpB
        | cons q B' => exact ⟨q, B', rfl⟩
      have hqraw : q ∈ raw := by
        rw [hAB]; exact List.mem_append_right A (List.mem_cons_self q B')
      have hq_ge : (m + 1) * 86400 ≤ q.date := by
        have h1 := hB q (List.mem_cons_self q B')
        obtain ⟨c, hc⟩ := hdvd q hqraw
        omega
      have hqtail : ∀ y ∈ B', q.date < y.date := by
        intro y hy
        have hpw : ((q :: B').map fun p => p.date).Pairwise (· < ·) :=
          ((List.pairwise_append.mp (by rwa [hAB, List.map_append] at hsort)).2.1)
        exact (List.pairwise_cons.mp hpw).1 y.date (List.mem_map_of_mem _ hy)
      have hqp : q.date = (m + 1) * 86400 := by
        rcases List.mem_cons.mp hpB with h | h
        · rw [← h]; exact hpdate
        · have := hqtail p h; omega
      have hget : (raw.map processPoint).get? A.length = some (processPoint q) := by
        rw [List.get?_map, hAB, List.get?_append_right (le_refl A.length)]
        simp
      rw [fillOk_present _ _ _ _ _ (processPoint q) hlt hd hget]
      rw [hstep]
      have hlen : A.length + 1 = (A ++ [q]).length := by simp
      rw [hlen]
      exact ih (m + 1) (A ++ [q]) B' (by omega)
        (by rw [hAB]; simp)
        (by intro x hx
            rcases List.mem_append.mp hx with h | h
            · have := hA x h; omega
            · rw [List.mem_singleton.mp h]; omega)
        (by intro y hy
            have := hqtail y hy
            omega)
    · have hd' : (m + 1) ∉ raw.map (fun p => jsDayIndex p.date) := by
        rwa [hstep, jsDayIndex_mul] at hd
      rw [fillOk_synth _ _ _ _ _ hlt hd]
      rw [hstep]
      have hB' : ∀ p ∈ B, (m + 1) * 86400 < p.date := by
        intro p hp
        have h1 := hB p hp
        have hpraw : p ∈ raw := by rw [hAB]; exact List.mem_append_right A hp
        obtain ⟨c, hc⟩ := hdvd p hpraw
        have hne : p.date ≠ (m + 1) * 86400 := by
          intro he
          exact hd' ((daySet_mem raw hdvd (m + 1)).mpr ⟨p, hpraw, he⟩)
        omega
      exact ih (m + 1) A B (by omega) hAB
        (fun p hp => le_trans (hA p hp) (by omega)) hB'

theorem getPairChartData_cons (p0 : RawDayData) (rest : List RawDayData)
    (startTime endTime : Nat) (h0 : ¬p0.date = 0) :
    getPairChartData (p0 :: rest) startTime endTime =
      (if fillOk ((p0 :: rest).map fun p => jsDayIndex p.date)
          ((p0 :: rest).map processPoint) (endTime - oneDay) p0.date 1 = true
       then sortByDate ((p0 :: rest).map processPoint ++
          fillPushed ((p0 :: rest).map fun p => jsDayIndex p.date)
            ((p0 :: rest).map processPoint) (endTime - oneDay) p0.date 1 p0.reserveUSD)
       else (p0 :: rest).map processPoint ++
          fillPushed ((p0 :: rest).map fun p => jsDayIndex p.date)
            ((p0 :: rest).map processPoint) (endTime - oneDay) p0.date 1 p0.reserveUSD) := by
  have h0' : ¬(processPoint p0).date = 0 := h0
  simp only [getPairChartData, List.map_cons]
  rw [if_neg h0']
  rfl

theorem filter_complement_perm (L : List Nat) (q : Nat → Bool) (kept : List Nat)
    (h : kept = L.filter q) :
    List.Perm (kept ++ L.filter (fun d => !q d)) L := by
  subst h
  exact List.filter_append_perm q L

/-- C1 amended: when the fetched daily points arrive sorted strictly
ascending with at most one point per calendar day, each date an exact
positive multiple of 86400 no later than "now minus one day" (how the
`pairDayDatas` subgraph entity delivers them), the returned series has
exactly one point per calendar day from the first point's day through now
minus one day, sorted ascending with no gaps; every synthesized point has
zero volume, zero utilization and the most recently known reserve carried
forward, and every fetched day keeps its fetched values.  (For unsorted or
duplicated inputs the code neither deduplicates nor re-sorts before
filling: see the counterexample.) -/
theorem chart_gap_fill_amended (raw : List RawDayData) (E d0 startTime : Nat)
    (hmul : ∀ p ∈ raw, 86400 ∣ p.date ∧ 86400 ≤ p.date ∧ p.date ≤ (E - 1) * 86400)
    (hsort : (raw.map fun p => p.date).Pairwise (· < ·))
    (hhead : (raw.map fun p => p.date).head? = some (d0 * 86400)) :
    ((getPairChartData raw startTime (E * 86400)).map fun p => p.date)
        = (List.range' d0 (E - d0)).map (fun d => d * 86400) ∧
    (∀ p ∈ getPairChartData raw startTime (E * 86400),
      p.date ∉ raw.map (fun q => q.date) →
        p.dailyVolumeUSD = 0 ∧ p.utilization = 0 ∧
          p.reserveUSD = carriedReserve raw p.date) ∧
    (∀ p ∈ getPairChartData raw startTime (E * 86400),
      p.date ∈ raw.map (fun q => q.date) →
        ∃ q ∈ raw, q.date = p.date ∧ p = processPoint q) := by
  have hdvd : ∀ p ∈ raw, 86400 ∣ p.date := fun p hp => (hmul p hp).1
  obtain ⟨p0, rest, rfl⟩ : ∃ p0 rest, raw = p0 :: rest := by
    cases raw with
    | nil => simp at hhead
    | cons p0 rest => exact ⟨p0, rest, rfl⟩
  have hp0raw : p0 ∈ p0 :: rest := List.mem_cons_self p0 rest
  have hp0d : p0.date = d0 * 86400 := by simpa using hhead
  have hd0ge : 1 ≤ d0 := by
    have := (hmul p0 hp0raw).2.1
    omega
  have hd0le : d0 ≤ E - 1 := by
    have := (hmul p0 hp0raw).2.2
    omega
  have hE2 : 2 ≤ E := by omega
  have h0ne : ¬p0.date = 0 := by omega
  have hstopeq : E * 86400 - oneDay = (E - 1) * 86400 := by
    simp only [oneDay]
    omega
  have hBgt : ∀ p ∈ rest, d0 * 86400 < p.date := by
    have hpw : (∀ a ∈ rest, p0.date < a.date) ∧
        (rest.map fun p => p.date).Pairwise (· < ·) := by simpa using hsort
    intro p hp
    have := hpw.1 p hp
    omega
  -- the synthesized-day list
  have hok : fillOk ((p0 :: rest).map fun p => jsDayIndex p.date)
      ((p0 :: rest).map processPoint) ((E - 1) * 86400) (d0 * 86400) 1 = true := by
    have := fillOk_spec (p0 :: rest) E hmul hsort ((E - 1) - d0) d0 [p0] rest rfl rfl
      (by intro p hp; rw [List.mem_singleton.mp hp]; omega) hBgt
    simpa using this
  have hpush : fillPushed ((p0 :: rest).map fun p => jsDayIndex p.date)
      ((p0 :: rest).map processPoint) ((E - 1) * 86400) (d0 * 86400) 1 p0.reserveUSD =
      ((List.range' (d0 + 1) ((E - 1) - d0)).filter
          (fun d => decide (d ∉ (p0 :: rest).map fun p => jsDayIndex p.date))).map
        (fun d => (⟨d * 86400, 0, carriedReserve (p0 :: rest) (d * 86400), 0⟩ : ChartPoint)) := by
    have := fillPushed_spec (p0 :: rest) E hmul hsort ((E - 1) - d0) d0 [p0] rest
      p0.reserveUSD rfl rfl
      (by intro p hp; rw [List.mem_singleton.mp hp]; omega) hBgt (by simp)
    simpa using this
  have hout : getPairChartData (p0 :: rest) startTime (E * 86400) =
      sortByDate ((p0 :: rest).map processPoint ++
        ((List.range' (d0 + 1) ((E - 1) - d0)).filter
            (fun d => decide (d ∉ (p0 :: rest).map fun p => jsDayIndex p.date))).map
          (fun d => (⟨d * 86400, 0, carriedReserve (p0 :: rest) (d * 86400), 0⟩ : ChartPoint))) := by
    rw [getPairChartData_cons p0 rest startTime (E * 86400) h0ne, hstopeq, hp0d, hok, hpush]
    simp
  -- day indices
  have hds : ((p0 :: rest).map fun p => jsDayIndex p.date)
      = ((p0 :: rest).map fun p => p.date / 86400) := by
    apply List.map_congr_left
    intro p hp
    obtain ⟨c, hc⟩ := hdvd p hp
    rw [hc, Nat.mul_comm 86400 c, jsDayIndex_mul, Nat.mul_div_cancel c (by norm_num)]
  rw [hds] at hout
  have hdays_cons : ((p0 :: rest).map fun p => p.date / 86400)
      = d0 :: rest.map (fun p => p.date / 86400) := by
    rw [List.map_cons, hp0d, Nat.mul_div_cancel d0 (by norm_num)]
  have hdays_pw : (((p0 :: rest).map fun p => p.date / 86400)).Pairwise (· < ·) := by
    rw [List.pairwise_map]
    have hsort' := List.pairwise_map.mp hsort
    refine hsort'.imp_of_mem ?_
    intro a b ha hb hab
    obtain ⟨ca, hca⟩ := hdvd a ha
    obtain ⟨cb, hcb⟩ := hdvd b hb
    rw [hca, hcb] at hab ⊢
    rw [Nat.mul_div_cancel_left ca (by norm_num), Nat.mul_div_cancel_left cb (by norm_num)]
    omega
  have hdtail_pw : (rest.map (fun p => p.date / 86400)).Pairwise (· < ·) := by
    have := hdays_cons ▸ hdays_pw
    exact (List.pairwise_cons.mp this).2
  have hdtail_gt : ∀ x ∈ rest.map (fun p => p.date / 86400), d0 < x := by
    have := hdays_cons ▸ hdays_pw
    exact (List.pairwise_cons.mp this).1
  have hdays_le : ∀ x ∈ (p0 :: rest).map (fun p => p.date / 86400), x ≤ E - 1 := by
    intro x hx
    obtain ⟨p, hp, hx2⟩ := List.mem_map.mp hx
    obtain ⟨c, hc⟩ := hdvd p hp
    have := (hmul p hp).2.2
    subst hx2
    rw [hc, Nat.mul_div_cancel_left c (by norm_num)]
    omega
  have hdays_le : ∀ x ∈ d0 :: rest.map (fun p => p.date / 86400), x ≤ E - 1 := by
    intro x hx
    rw [← hdays_cons] at hx
    obtain ⟨p, hp, hx2⟩ := List.mem_map.mp hx
    obtain ⟨c, hc⟩ := hdvd p hp
    have := (hmul p hp).2.2
    subst hx2
    rw [hc, Nat.mul_div_cancel_left c (by norm_num)]
    omega
  have hdtail_eq : rest.map (fun p => p.date / 86400)
      = (List.range' (d0 + 1) (E - 1 - d0)).filter
          (fun d => decide (d ∈ d0 :: rest.map (fun p => p.date / 86400))) := by
    apply sorted_nat_eq _ _ hdtail_pw ((pairwise_lt_range' _ _).filter _)
    intro x
    constructor
    · intro hx
      rw [List.mem_filter]
      refine ⟨?_, decide_eq_true (List.mem_cons_of_mem d0 hx)⟩
      rw [List.mem_range'_1]
      have h1 := hdtail_gt x hx
      have h2 := hdays_le x (List.mem_cons_of_mem d0 hx)
      omega
    · intro hx
      obtain ⟨hxr, hxd⟩ := List.mem_filter.mp hx
      have hxdays : x ∈ d0 :: rest.map (fun p => p.date / 86400) := of_decide_eq_true hxd
      rcases List.mem_cons.mp hxdays with h | h
      · rw [List.mem_range'_1] at hxr
        omega
      · exact h
  rw [hdays_cons] at hout
  have hnot : (fun d => decide (d ∉ d0 :: rest.map (fun p => p.date / 86400)))
      = (fun d => !decide (d ∈ d0 :: rest.map (fun p => p.date / 86400))) := by
    funext d
    exact decide_not
  have base : List.Perm
      (rest.map (fun p => p.date / 86400) ++
        (List.range' (d0 + 1) (E - 1 - d0)).filter
          (fun d => !decide (d ∈ d0 :: rest.map (fun p => p.date / 86400))))
      (List.range' (d0 + 1) (E - 1 - d0)) :=
    filter_complement_perm _ _ _ hdtail_eq
  have hperm_days : List.Perm
      ((d0 :: rest.map (fun p => p.date / 86400)) ++
        (List.range' (d0 + 1) (E - 1 - d0)).filter
          (fun d => decide (d ∉ d0 :: rest.map (fun p => p.date / 86400))))
      (List.range' d0 (E - d0)) := by
    rw [hnot, show E - d0 = (E - 1 - d0) + 1 by omega, List.range'_succ, List.cons_append]
    exact base.cons d0
  have hproc_dates : (((p0 :: rest).map processPoint).map fun p => p.date)
      = (d0 :: rest.map (fun p => p.date / 86400)).map (fun d => d * 86400) := by
    rw [← hdays_cons, List.map_map, List.map_map]
    apply List.map_congr_left
    intro p hp
    show p.date = p.date / 86400 * 86400
    exact (Nat.div_mul_cancel (hdvd p hp)).symm
  have hsynth_dates : ∀ M : List Nat,
      ((M.map fun d => (⟨d * 86400, 0, carriedReserve (p0 :: rest) (d * 86400), 0⟩ :
          ChartPoint)).map fun p => p.date)
        = M.map (fun d => d * 86400) := by
    intro M
    rw [List.map_map]
    rfl
  refine ⟨?_, ?_, ?_⟩
  · have hperm : List.Perm
        ((getPairChartData (p0 :: rest) startTime (E * 86400)).map fun p => p.date)
        ((List.range' d0 (E - d0)).map fun d => d * 86400) := by
      rw [hout]
      refine List.Perm.trans (List.Perm.map _ (sortByDate_perm _)) ?_
      rw [List.map_append, hproc_dates, hsynth_dates, ← List.map_append]
      exact List.Perm.map _ hperm_days
    have hsorted_out : ((getPairChartData (p0 :: rest) startTime (E * 86400)).map
        fun p => p.date).Pairwise (· ≤ ·) := by
      rw [hout, List.pairwise_map]
      exact sortByDate_sorted _
    have hsorted_target : ((List.range' d0 (E - d0)).map fun d => d * 86400).Pairwise
        (· ≤ ·) := by
      rw [List.pairwise_map]
      exact (pairwise_lt_range' _ _).imp (fun h => by omega)
    exact List.eq_of_perm_of_sorted hperm hsorted_out hsorted_target
  · intro p hp hnot2
    have hpX := (sortByDate_perm _).mem_iff.mp (hout ▸ hp)
    rcases List.mem_append.mp hpX with h | h
    · exfalso
      obtain ⟨q, hq, hq2⟩ := List.mem_map.mp h
      exact hnot2 (hq2 ▸ List.mem_map_of_mem (fun r => r.date) hq)
    · obtain ⟨d, hd, hd2⟩ := List.mem_map.mp h
      refine ⟨?_, ?_, ?_⟩ <;> rw [← hd2]
  · intro p hp hin
    have hpX := (sortByDate_perm _).mem_iff.mp (hout ▸ hp)
    rcases List.mem_append.mp hpX with h | h
    · obtain ⟨q, hq, hq2⟩ := List.mem_map.mp h
      exact ⟨q, hq, by rw [← hq2]; rfl, hq2.symm⟩
    · exfalso
      obtain ⟨d, hd, hd2⟩ := List.mem_map.mp h
      obtain ⟨hdr, hdnot⟩ := List.mem_filter.mp hd
      obtain ⟨q, hq, hq2⟩ := List.mem_map.mp hin
      have hqd : q.date = d * 86400 := by rw [hq2, ← hd2]
      have hmem : d ∈ d0 :: rest.map (fun r => r.date / 86400) := by
        rw [← hdays_cons]
        refine List.mem_map.mpr ⟨q, hq, ?_⟩
        rw [hqd, Nat.mul_div_cancel d (by norm_num)]
      exact (of_decide_eq_true hdnot) hmem

/-- Fetched points for days 1, 3 and 6, with "now" at day 7. -/
def rawW : List RawDayData := [⟨86400, 10, 100⟩, ⟨259200, 5, 200⟩, ⟨518400, 7, 300⟩]

theorem chart_gap_fill_amended_witness :
    ((getPairChartData rawW 0 (7 * 86400)).map fun p => p.date)
        = (List.range' 1 (7 - 1)).map (fun d => d * 86400) ∧
    (∀ p ∈ getPairChartData rawW 0 (7 * 86400),
      p.date ∉ rawW.map (fun q => q.date) →
        p.dailyVolumeUSD = 0 ∧ p.utilization = 0 ∧
          p.reserveUSD = carriedReserve rawW p.date) ∧
    (∀ p ∈ getPairChartData rawW 0 (7 * 86400),
      p.date ∈ rawW.map (fun q => q.date) →
        ∃ q ∈ rawW, q.date = p.date ∧ p = processPoint q) :=
  chart_gap_fill_amended rawW 7 1 0 (by decide) (by decide) rfl

end SwaprInfo
